import Mathlib

/-!
Verification development for the `vat_exporter` package: a shallow embedding
of the ledger-aggregation and declaration-derivation engine
(`journal.py`, `processing.py`, `deklar.py`, `io_utils.py`).

Modelling conventions:
* Python floats are embedded as `ℚ` (exact arithmetic; IEEE rounding is not
  modelled).
* Python strings are manipulated through their character lists so that all
  definitions are executable and kernel-reducible.
* A pandas cell that may be `NaN`/`None` is an `Option`; a column that may be
  absent from the frame is likewise an `Option` at the row level.
* Python `dict` values are rows `String → Option Val`; `dict` writes are
  functional updates.
-/

/-- Values stored in an output/declaration row: Python floats and ints are
`num` (over `ℚ`), strings are `str`, `None`/`NaN` is `null`. -/
inductive Val where
  | num (q : ℚ)
  | str (s : String)
  | null
deriving DecidableEq, Repr

/-- A dict keyed by column name, as produced for output rows.  `none` means
the key is absent from the dict. -/
def Row : Type := String → Option Val

/-- Model of `row[k] = v` — functional update of a dict. -/
def setRow (r : Row) (k : String) (v : Val) : Row :=
  fun x => if x = k then some v else r x

/-- The empty dict. -/
def emptyRow : Row := fun _ => none

/-- Apply a list of dict writes in order (later writes win). -/
def applySets (r : Row) (us : List (String × Val)) : Row :=
  us.foldl (fun r p => setRow r p.1 p.2) r

/-- The single-quote character (written via its code point). -/
def squoteChar : Char := Char.ofNat 39

/-- The double-quote character. -/
def dquoteChar : Char := Char.ofNat 34

/-- Split a character list on commas (`str.split(",")`): every comma is a
separator, empty pieces are kept. -/
def splitCommaAux : List Char → List Char → List (List Char)
  | [], acc => [acc.reverse]
  | c :: t, acc =>
      if c = ',' then acc.reverse :: splitCommaAux t []
      else splitCommaAux t (c :: acc)

/-- Python `str.strip()`: drop whitespace from both ends. -/
def trimChars (l : List Char) : List Char :=
  ((l.dropWhile Char.isWhitespace).reverse.dropWhile Char.isWhitespace).reverse

/-- Model of `processing.py` tag parsing: strip the quote characters, split on commas,
strip whitespace from each piece and drop empty pieces
(`clean_tags_str = tax_tags_str.replace("'","").replace('"',"")`;
`[tag.strip() for tag in clean_tags_str.split(",") if tag.strip()]`). -/
def parseTags (s : String) : List String :=
  ((splitCommaAux (s.toList.filter (fun c => c ≠ squoteChar ∧ c ≠ dquoteChar)) []).map
    (fun t => String.mk (trimChars t))).filter (fun t => t ≠ "")

/-- Numeric value of a digit list (most significant first). -/
def digitsVal (l : List Char) : Nat :=
  l.foldl (fun a c => a * 10 + (c.toNat - 48)) 0

/-- Model of Python `float(s)` on a character list: optional sign, an integer
part and/or a fractional part separated by `'.'`.  (Exponent and special
forms such as `inf` are not modelled; none of the verified inputs use them.)
`none` models the `ValueError` raised by an unparsable literal. -/
def pyFloatChars (l : List Char) : Option ℚ :=
  let signed : Bool × List Char :=
    match l with
    | c :: t => if c = '-' then (true, t) else if c = '+' then (false, t) else (false, l)
    | [] => (false, [])
  let sgn : ℚ := if signed.1 then -1 else 1
  let ip := signed.2.takeWhile Char.isDigit
  let rest := signed.2.dropWhile Char.isDigit
  match rest with
  | [] => if ip = [] then none else some (sgn * digitsVal ip)
  | c :: fr =>
      if c = '.' ∧ fr.all Char.isDigit ∧ (ip ≠ [] ∨ fr ≠ []) then
        some (sgn * ((digitsVal ip : ℚ) + (digitsVal fr : ℚ) / (10 : ℚ) ^ fr.length))
      else none

/-- Python `float(s)` on a string (Python's `float` ignores surrounding
whitespace). -/
def pyFloat (s : String) : Option ℚ :=
  pyFloatChars (trimChars s.toList)

/-- Model of `deklar.py::_parse_float`: `None` gives `0.0`; otherwise
`str(value).strip().replace(",", ".")` is parsed with `float`, any parse
failure giving `0.0`.  For a value that is already a float, `float(str(x))`
round-trips, so `num q` maps to `q`. -/
def parse_float : Val → ℚ
  | Val.num q => q
  | Val.str s =>
      (pyFloatChars ((trimChars s.toList).map (fun c => if c = ',' then '.' else c))).getD 0
  | Val.null => 0

/-- Python `str.zfill(w)` on a character list: pad with `'0'` on the left to
width `w`, but keep a leading `'-'`/`'+'` sign in front of the padding. -/
def zfillChars (l : List Char) (w : Nat) : List Char :=
  if w ≤ l.length then l
  else
    match l with
    | [] => List.replicate w '0'
    | c :: rest =>
        if c = '-' ∨ c = '+' then c :: (List.replicate (w - l.length) '0' ++ rest)
        else List.replicate (w - l.length) '0' ++ (c :: rest)

/-- Model of `str.zfill` on strings. -/
def zfill (s : String) (w : Nat) : String :=
  String.mk (zfillChars s.toList w)

/-- Python `s[-n:]`: the last `n` characters. -/
def takeLastChars (s : String) (n : Nat) : String :=
  String.mk (s.toList.drop (s.toList.length - n))

/-- Model of `journal.py::create_agg_col.format_agg_col`: a non-null value is
stringified and brought to exactly 10 characters — the last 10 characters if
longer, `zfill` to 10 if shorter — while a null value stays null. -/
def format_agg_col (x : Option String) : Option String :=
  match x with
  | some s => if 10 < s.length then some (takeLastChars s 10) else some (zfill s 10)
  | none => none

/-- One normalized ledger line, restricted to the columns the engine reads.
`Option` fields model nullable cells; `doc_type_raw` models the raw Odoo
column `move_id/l10n_bg_document_type`, whose very *presence* in the frame is
optional (`none` = column absent), while `document_type` is the canonical
column guaranteed by `journal.py::REQUIRED_LEDGER_COLUMN_KEYS`. -/
structure JLine where
  journal_type : String
  purchase_ref : Option String
  sales_move_name : Option String
  partner_vat : Option String
  partner_name : Option String
  date : String
  date_dt : Option (Nat × Nat × Nat)
  doc_type_raw : Option String
  document_type : Option String
  jid : String
  debit : ℚ
  credit : ℚ
  tax_tag_ids : String
deriving DecidableEq, Repr

/-- Model of `journal.py::create_agg_col._agg_source`: `purchase_ref` for Purchase
journals, `sales_move_name` for Sales journals, the sentinel otherwise. -/
def aggSource (l : JLine) : Option String :=
  if l.journal_type = "Purchase" then l.purchase_ref
  else if l.journal_type = "Sales" then l.sales_move_name
  else some "UNKNOWN"

/-- The line's `agg_col` value after `create_agg_col`. -/
def aggCol (l : JLine) : Option String :=
  format_agg_col (aggSource l)

/-- Model of `processing.py` lines 136-138: `partner_id/vat` with `NaN` or `""`
replaced by the sentinel, before grouping. -/
def effVat (l : JLine) : String :=
  match l.partner_vat with
  | none => "999999999"
  | some v => if v = "" then "999999999" else v

/-- The grouping key `(agg_col, partner_id/vat, date)` of a line; `none` when
`agg_col` is null (pandas `groupby` then *drops* the line, since the default
`dropna=True` excludes rows whose key contains a null). -/
def keyOf (l : JLine) : Option (String × String × String) :=
  (aggCol l).map (fun a => (a, effVat l, l.date))

/-- The distinct grouping keys, in first-appearance order.  (pandas emits
groups in sorted key order; none of the verified properties depend on the
order of the groups.) -/
def groupKeys (lines : List JLine) : List (String × String × String) :=
  (lines.filterMap keyOf).dedup

/-- Model of `processing.py` line 145: the document groups produced by
`journal_df.groupby(["agg_col", "partner_id/vat", "date"])`.  Lines whose key
is null belong to no group. -/
def groupsOf (lines : List JLine) : List (List JLine) :=
  (groupKeys lines).map (fun k => lines.filter (fun l => keyOf l = some k))

/-- Model of `processing.py` lines 173-178: signed amount of a line from its
debit/credit pair and the journal id (`journal_id/.id`; the preceding read of
`journal_id/type` on line 170 is immediately overwritten and has no effect).
`"10"` is the purchases journal, `"9"` the sales journal. -/
def resolveAmount (jid : String) (debit credit : ℚ) : ℚ :=
  if jid = "10" then (if 0 < debit then debit else -credit)
  else if jid = "9" then (if 0 < debit then -debit else credit)
  else debit - credit

/-- The resolved signed amount of a ledger line. -/
def amountOf (l : JLine) : ℚ :=
  resolveAmount l.jid l.debit l.credit

/-- One entry of `tax_grid_mapping.json`: a tax code and the sales/purchases
schema field ids it contributes to. -/
structure MapEntry where
  tax_grid : String
  prodagbi_columns : List Nat
  pokupki_columns : List Nat
deriving DecidableEq, Repr

/-- Python `if col_id not in d: d[col_id] = 0.0; d[col_id] += amount` on an
insertion-ordered dict held as an association list. -/
def addAmt : List (Nat × ℚ) → Nat → ℚ → List (Nat × ℚ)
  | [], k, a => [(k, a)]
  | (k', v) :: t, k, a =>
      if k' = k then (k', v + a) :: t else (k', v) :: addAmt t k a

/-- The accumulated amount stored for a field id (0 if the id was never
touched). -/
def getAmt (d : List (Nat × ℚ)) (f : Nat) : ℚ :=
  ((d.lookup f).getD 0)

/-- Model of `processing.py` lines 181-202: fan one line's tax tags through the
mapping table, adding the line's resolved amount into the per-document
accumulators of both tables (unmapped tags are skipped silently; an entry
with an empty column list contributes nothing). -/
def accumLine (tm : List MapEntry) (acc : List (Nat × ℚ) × List (Nat × ℚ)) (l : JLine) :
    List (Nat × ℚ) × List (Nat × ℚ) :=
  (parseTags l.tax_tag_ids).foldl
    (fun acc tag =>
      match tm.find? (fun m => m.tax_grid = tag) with
      | none => acc
      | some m =>
          (m.prodagbi_columns.foldl (fun d cid => addAmt d cid (amountOf l)) acc.1,
           m.pokupki_columns.foldl (fun d cid => addAmt d cid (amountOf l)) acc.2))
    acc

/-- Model of `processing.py` lines 157-202: the two per-document accumulators after
processing every line of a document group. -/
def accumGroup (tm : List MapEntry) (lines : List JLine) :
    List (Nat × ℚ) × List (Nat × ℚ) :=
  lines.foldl (accumLine tm) ([], [])

/-- Number of times one line contributes to sales field id `f`: one per
occurrence of `f` in the mapping entry of each of the line's parsed tags. -/
def lineMultP (tm : List MapEntry) (f : Nat) (l : JLine) : Nat :=
  ((parseTags l.tax_tag_ids).map
    (fun tag =>
      match tm.find? (fun m => m.tax_grid = tag) with
      | some m => m.prodagbi_columns.count f
      | none => 0)).sum

/-- Same for purchases field ids. -/
def lineMultK (tm : List MapEntry) (f : Nat) (l : JLine) : Nat :=
  ((parseTags l.tax_tag_ids).map
    (fun tag =>
      match tm.find? (fun m => m.tax_grid = tag) with
      | some m => m.pokupki_columns.count f
      | none => 0)).sum

/-- One field descriptor of an output-table schema (`*_schema.json`). -/
structure OutField where
  id : Nat
  internal_name : String
  type : String
  is_amount : Bool
  length : Option Nat
  decimals : Option Nat
  align : Option String
  fill_char : Option Char
deriving DecidableEq, Repr

/-- An output-table schema. -/
structure Schema where
  schema_name : String
  fields : List OutField
deriving DecidableEq, Repr

/-- Model of `processing.py::create_output_row` lines 36-47: per-type default of a
field (amount/float 0.0, string "", otherwise `None`). -/
def fieldDefault (f : OutField) : Val :=
  if f.is_amount then Val.num 0
  else if f.type = "float64" then Val.num 0
  else if f.type = "object" then Val.str ""
  else Val.null

/-- The schema-default row: every declared field set to its type default. -/
def initRow (schema : Schema) : Row :=
  schema.fields.foldl (fun r f => setRow r f.internal_name (fieldDefault f)) emptyRow

/-- Zero-pad a natural number to a width (for `strftime`). -/
def natPad (n w : Nat) : String :=
  let s := toString n
  if s.length < w then String.mk (List.replicate (w - s.length) '0' ++ s.toList) else s

/-- Model of `dt.strftime("%Y%m")`. -/
def fmtYYYYMM (y m : Nat) : String := natPad y 4 ++ natPad m 2

/-- Model of `dt.strftime("%d/%m/%Y")`. -/
def fmtDDMMYYYY (y m d : Nat) : String := natPad d 2 ++ "/" ++ natPad m 2 ++ "/" ++ natPad y 4

/-- Model of the fallback `pd.to_datetime(s, dayfirst=True, format="%Y-%m-%d")`
in `create_output_row`: a strict `YYYY-MM-DD` parse (basic range checks;
calendar-exact month lengths are not modelled — no verified property touches
this fallback). -/
def parseISODate (s : String) : Option (Nat × Nat × Nat) :=
  match s.toList with
  | [y1, y2, y3, y4, h1, m1, m2, h2, d1, d2] =>
      if h1 = '-' ∧ h2 = '-' ∧ [y1, y2, y3, y4, m1, m2, d1, d2].all Char.isDigit then
        let y := digitsVal [y1, y2, y3, y4]
        let m := digitsVal [m1, m2]
        let d := digitsVal [d1, d2]
        if 1 ≤ m ∧ m ≤ 12 ∧ 1 ≤ d ∧ d ≤ 31 then some (y, m, d) else none
      else none
  | _ => none

/-- Company context extracted from the journal (`journal.py::select_company`). -/
structure Company where
  vat : String
  legal_name : String
  default_submitter : Option String
deriving DecidableEq, Repr

/-- Model of `create_output_row` date block: prefer the parsed `date_dt`; otherwise
try the strict ISO re-parse of the `date` cell, falling back to an empty tax
period and the raw date string. -/
def dateUpdates (l : JLine) : List (String × Val) :=
  match l.date_dt with
  | some (y, m, d) =>
      [("tax_period", Val.str (fmtYYYYMM y m)),
       ("document_date", Val.str (fmtDDMMYYYY y m d))]
  | none =>
      match parseISODate l.date with
      | some (y, m, d) =>
          [("tax_period", Val.str (fmtYYYYMM y m)),
           ("document_date", Val.str (fmtDDMMYYYY y m d))]
      | none =>
          [("tax_period", Val.str ""), ("document_date", Val.str l.date)]

/-- Model of `create_output_row` goods/service description block: a fixed literal per
table, written only when the schema declares the field. -/
def gosUpdates (schema : Schema) : List (String × Val) :=
  if schema.fields.any (fun f => f.internal_name = "goods_or_service_description") then
    if schema.schema_name = "prodagbi_schema" then
      [("goods_or_service_description", Val.str "продажба стока/услуга")]
    else if schema.schema_name = "pokupki_schema" then
      [("goods_or_service_description", Val.str "покупка стока/услуга")]
    else []
  else []

/-- The ordered dict writes performed by `processing.py::create_output_row`
after the schema-default initialization.  The `partner_id/vat`, `date` and
`agg_col` columns are always present when this runs (`process_journal`
requires the first two and creates the third), so their presence checks are
taken as true; `move_id/l10n_bg_document_type` is genuinely optional. -/
def outputRowUpdates (l : JLine) (schema : Schema) (rowNumber : Nat) (comp : Company) :
    List (String × Val) :=
  [("vat_number", Val.str comp.vat),
   ("counterparty_vat", Val.str (match l.partner_vat with
      | some v => if v = "" then "999999999" else v
      | none => "999999999")),
   ("counterparty_name", Val.str (l.partner_name.getD ""))]
  ++ dateUpdates l
  ++ [("document_number", match aggCol l with
        | some a => Val.str a
        | none => Val.null),
      ("journal_row_number", Val.str (toString rowNumber)),
      ("document_type", match l.doc_type_raw with
        | some v => Val.str (zfill v 2)
        | none => Val.str "!!")]
  ++ gosUpdates schema
  ++ [("branch_number", Val.num 0)]

/-- Model of `processing.py::create_output_row`: schema-default initialization followed
by the field writes above. -/
def create_output_row (l : JLine) (schema : Schema) (rowNumber : Nat) (comp : Company) : Row :=
  applySets (initRow schema) (outputRowUpdates l schema rowNumber comp)

/-- Model of `{field["id"]: field["internal_name"]}` — schema field id to column name
(a later field with the same id overrides an earlier one, as in a dict
comprehension). -/
def schemaIdToCol (schema : Schema) (cid : Nat) : Option String :=
  ((schema.fields.reverse).find? (fun f => f.id = cid)).map (fun f => f.internal_name)

/-- Write the accumulated amounts into the base row
(`for col_id, amount in … .items(): row[id_to_col[col_id]] = amount`).
An id absent from the schema raises `KeyError` in Python; it is skipped here
and never arises in the verified configurations. -/
def applyAmounts (r : Row) (idToCol : Nat → Option String) (amts : List (Nat × ℚ)) : Row :=
  amts.foldl
    (fun r p =>
      match idToCol p.1 with
      | some c => setRow r c (Val.num p.2)
      | none => r)
    r

/-- Model of `processing.py::process_journal` main loop over the document groups,
with the two per-table row counters threaded through.  A group emits a row
into a table exactly when its accumulator for that table is non-empty, and
only then consumes a row number.  (An empty group cannot arise from
`groupby`; `group_df.iloc[0]` would fail on one, and it is skipped here.) -/
def processGroupsAux (tm : List MapEntry) (ps pk : Schema) (comp : Company) :
    List (List JLine) → Nat → Nat → List Row × List Row
  | [], _, _ => ([], [])
  | g :: rest, pc, kc =>
      match g with
      | [] => processGroupsAux tm ps pk comp rest pc kc
      | h :: _ =>
          let acc := accumGroup tm g
          let pEmit := acc.1 ≠ []
          let kEmit := acc.2 ≠ []
          let prow : List Row :=
            if pEmit then [applyAmounts (create_output_row h ps pc comp) (schemaIdToCol ps) acc.1]
            else []
          let krow : List Row :=
            if kEmit then [applyAmounts (create_output_row h pk kc comp) (schemaIdToCol pk) acc.2]
            else []
          let rst := processGroupsAux tm ps pk comp rest (if pEmit then pc + 1 else pc)
            (if kEmit then kc + 1 else kc)
          (prow ++ rst.1, krow ++ rst.2)

/-- Model of `processing.py::process_journal`: group the lines into documents and emit
the PRODAGBI and POKUPKI rows, counters starting at 1. -/
def process_journal (tm : List MapEntry) (ps pk : Schema) (comp : Company)
    (lines : List JLine) : List Row × List Row :=
  processGroupsAux tm ps pk comp (groupsOf lines) 1 1

/-- Python `str.rjust(n, c)` on a character list. -/
def pyRjustChars (s : List Char) (n : Nat) (c : Char) : List Char :=
  if n ≤ s.length then s else List.replicate (n - s.length) c ++ s

/-- Python `str.ljust(n, c)` on a character list. -/
def pyLjustChars (s : List Char) (n : Nat) (c : Char) : List Char :=
  if n ≤ s.length then s else s ++ List.replicate (n - s.length) c

/-- Python fixed-point formatting `f"{num:.{d}f}"` over exact rationals
(ties are rounded with Mathlib's `round`; binary-float rounding artifacts are
not modelled). -/
def formatFixed (q : ℚ) (d : Nat) : String :=
  let n : Nat := (round (|q| * (10 : ℚ) ^ d)).toNat
  let core := toString (n / 10 ^ d) ++ (if d = 0 then "" else "." ++ natPad (n % 10 ^ d) d)
  if q < 0 then "-" ++ core else core

/-- Model of Python `str(value)` on a row value.  String and `None` cases are
exact; a float's decimal repr is modelled at two decimals (no verified
configuration formats a numeric value through a text-typed field). -/
def pyStrOfVal : Val → String
  | Val.str s => s
  | Val.null => "None"
  | Val.num q => formatFixed q 2

/-- Model of `float(value)` with the surrounding `try/except` that defaults
to `0.0` (`io_utils.py` lines 95-98 and 101-104). -/
def floatOfVal : Val → ℚ
  | Val.num q => q
  | Val.str s => (pyFloat s).getD 0
  | Val.null => 0

/-- The raw (pre-padding) string of `format_value_for_txt`: fixed-point for
amounts and floats, rounded integer for `int64`, `str(value)` otherwise. -/
def fmtRaw (v : Val) (ftype : String) (is_amount : Bool) (decimals : Nat) : String :=
  if is_amount then formatFixed (floatOfVal v) decimals
  else if ftype = "float64" ∨ ftype = "int64" then
    if ftype = "int64" then toString (round (floatOfVal v) : ℤ)
    else formatFixed (floatOfVal v) decimals
  else pyStrOfVal v

/-- Model of `io_utils.py` lines 112-127: truncate to the width, pad on the
alignment side, then the final safety pass that re-checks the exact width. -/
def padExact (s : List Char) (n : Nat) (alignStr : String) (fill : Char) : List Char :=
  let s1 := if n < s.length then s.take n else s
  let s2 := if alignStr = "right" then pyRjustChars s1 n fill else pyLjustChars s1 n fill
  if s2.length = n then s2
  else if n < s2.length then s2.take n else pyLjustChars s2 n fill

/-- Model of `io_utils.py::format_value_for_txt`: `none` models the `ValueError` for a
field with no declared length.  The incoming `value` is `none` when the
column is absent from the frame (`df_to_fixed_width_txt` passes `None`). -/
def format_value_for_txt (value : Option Val) (f : OutField) : Option String :=
  match f.length with
  | none => none
  | some n =>
      let decimals := f.decimals.getD 2
      let numericType := f.type = "float64" ∨ f.type = "int64"
      let alignStr :=
        if f.is_amount then f.align.getD "right"
        else if numericType then f.align.getD "right"
        else f.align.getD "left"
      let fill :=
        if f.is_amount then f.fill_char.getD ' '
        else if numericType then f.fill_char.getD ' '
        else f.fill_char.getD ' '
      let v : Val :=
        match value with
        | none => if f.is_amount ∨ numericType then Val.num 0 else Val.str ""
        | some Val.null => if f.is_amount ∨ numericType then Val.num 0 else Val.str ""
        | some w => w
      some (String.mk (padExact (fmtRaw v f.type f.is_amount decimals).toList n alignStr fill))

/-- Stable insertion of a field into a list already sorted by `id`. -/
def insField (x : OutField) : List OutField → List OutField
  | [] => [x]
  | y :: t => if y.id ≤ x.id then y :: insField x t else x :: y :: t

/-- Model of `sorted(schema["fields"], key=lambda f: f["id"])` — stable sort by the
field ordering id. -/
def sortFieldsById (l : List OutField) : List OutField :=
  l.foldl (fun acc x => insField x acc) []

/-- An in-memory table handed to the encoder: its column list and its rows
(each row total over the columns; values of columns outside `cols` are never
read). -/
structure OutTable where
  cols : List String
  rows : List (String → Val)

/-- One encoded line of `df_to_fixed_width_txt`: the per-field strings of the
row, fields in ascending id order, concatenated (`"".join(parts)`).  A column
absent from the frame contributes `None` as the value. -/
def encodeRow (cols : List String) (r : String → Val) (schema : Schema) : Option String :=
  ((sortFieldsById schema.fields).mapM
    (fun fd => format_value_for_txt (if fd.internal_name ∈ cols then some (r fd.internal_name) else none) fd)).map
    (fun parts => String.join parts)

/-- Model of `io_utils.py::df_to_fixed_width_txt` (encoding part): one fixed-width
line per row. -/
def df_to_fixed_width_txt (t : OutTable) (schema : Schema) : Option (List String) :=
  t.rows.mapM (fun r => encodeRow t.cols r schema)

/-- One field descriptor of `deklar_schema.json` (only the keys
`generate_deklar` reads). -/
structure DField where
  internal_name : String
  type : String
deriving DecidableEq, Repr

/-- One entry of `deklar_mapping.json["fields"]`. -/
structure DRule where
  deklar_column : String
  source_kind : String
  source_column : Option String
  default_value : Option Val
deriving DecidableEq, Repr

/-- A materialized register as consumed by `generate_deklar`: its column
names and its rows (numeric view — the declaration only counts rows and sums
numeric columns). -/
structure DTable where
  cols : List String
  rows : List (String → ℚ)

/-- Model of `deklar.py` Step 1 defaults: `float64 → 0.0`, `object → ""`, else `None`. -/
def dDefault (t : String) : Val :=
  if t = "float64" then Val.num 0 else if t = "object" then Val.str "" else Val.null

/-- Step 1: initialize every declaration column from the schema. -/
def deklarInit (fields : List DField) : Row :=
  fields.foldl (fun r f => setRow r f.internal_name (dDefault f.type)) emptyRow

/-- Step 2: `{m["deklar_column"]: m for m in …}` — on duplicate columns the
*last* mapping entry wins, as in a dict comprehension. -/
def lookupRule (mapping : List DRule) (c : String) : Option DRule :=
  (mapping.reverse).find? (fun m => m.deklar_column = c)

/-- Model of `{f["internal_name"]: f for f in deklar_schema["fields"]}` (last wins). -/
def schemaByName (fields : List DField) (c : String) : Option DField :=
  (fields.reverse).find? (fun f => f.internal_name = c)

/-- Model of `schema_by_name[col].get("type", "float64")` — the declared type used by
the `manual_or_constant` branch. -/
def dType (fields : List DField) (c : String) : String :=
  ((schemaByName fields c).map (fun f => f.type)).getD "float64"

/-- Model of `df[src].sum()` over the rows of a register. -/
def sumCol (t : DTable) (c : String) : ℚ :=
  (t.rows.map (fun r => r c)).sum

/-- Model of `deklar.py` Step 3, one schema field: fill a non-expression declaration
column from its mapping rule (company/context, register sums, manual or
constant); unknown source kinds and unmapped columns are left untouched. -/
def step3One (prod pok : DTable) (taxPeriod : String) (comp : Company)
    (ovr : String → Option Val) (fields : List DField) (mapping : List DRule)
    (r : Row) (f : DField) : Row :=
  let col := f.internal_name
  match lookupRule mapping col with
  | none => r
  | some m =>
      if m.source_kind = "from_input_or_company" then
        if col = "vat_number" then setRow r col (Val.str comp.vat)
        else if col = "taxpayer_name" then setRow r col (Val.str comp.legal_name)
        else if col = "tax_period" then setRow r col (Val.str taxPeriod)
        else if col = "submitter_person" then
          setRow r col ((ovr "submitter_person").getD
            (Val.str (comp.default_submitter.getD "Емилия Гюрова")))
        else if col = "sales_document_count" then setRow r col (Val.num prod.rows.length)
        else if col = "purchases_document_count" then setRow r col (Val.num pok.rows.length)
        else r
      else if m.source_kind = "sum_prodagbi_column" then
        setRow r col (match m.source_column with
          | some src => if src ∈ prod.cols ∧ 0 < prod.rows.length then Val.num (sumCol prod src) else Val.num 0
          | none => Val.num 0)
      else if m.source_kind = "sum_pokupki_column" then
        setRow r col (match m.source_column with
          | some src => if src ∈ pok.cols ∧ 0 < pok.rows.length then Val.num (sumCol pok src) else Val.num 0
          | none => Val.num 0)
      else if m.source_kind = "manual_or_constant" then
        match ovr col with
        | some v =>
            if dType fields col = "float64" then setRow r col (Val.num (parse_float v))
            else setRow r col v
        | none =>
            match m.default_value with
            | some dv =>
                if dType fields col = "float64" then setRow r col (Val.num (parse_float dv))
                else setRow r col dv
            | none => r
      else r

/-- Step 3 over all schema fields, in schema order. -/
def deklarStep3 (prod pok : DTable) (taxPeriod : String) (comp : Company)
    (ovr : String → Option Val) (fields : List DField) (mapping : List DRule)
    (r : Row) : Row :=
  fields.foldl (step3One prod pok taxPeriod comp ovr fields mapping) r

/-- Model of `deklar_row.get(k, 0.0)` as a number.  (If the stored value is a string
Python's arithmetic would raise `TypeError`; the verified statements add
numeric hypotheses where this matters.) -/
def getNumD (r : Row) (k : String) : ℚ :=
  match r k with
  | some (Val.num q) => q
  | _ => 0

/-- Model of `deklar.py` Step 4, one schema field: evaluate one of the three built-in
declaration expressions against the *current* row values. -/
def step4One (mapping : List DRule) (r : Row) (f : DField) : Row :=
  let col := f.internal_name
  match lookupRule mapping col with
  | none => r
  | some m =>
      if m.source_kind = "from_deklar_expression" then
        if col = "total_tax_credit" then
          setRow r col (Val.num (getNumD r "purchases_vat_full_credit"))
        else if col = "vat_due" then
          setRow r col (Val.num (max 0 (getNumD r "sales_total_vat" - getNumD r "total_tax_credit")))
        else if col = "vat_refundable" then
          setRow r col (Val.num (max 0 (getNumD r "total_tax_credit" - getNumD r "sales_total_vat")))
        else r
      else r

/-- Step 4 over all schema fields, in schema order. -/
def deklarStep4 (fields : List DField) (mapping : List DRule) (r : Row) : Row :=
  fields.foldl (step4One mapping) r

/-- Model of `deklar.py` Step 5: an `egn` override lands in `submitter_egn` when that
key exists in the row, otherwise in `egn` when that key exists. -/
def deklarStep5 (ovr : String → Option Val) (r : Row) : Row :=
  match ovr "egn" with
  | none => r
  | some v =>
      if (r "submitter_egn").isSome then setRow r "submitter_egn" v
      else if (r "egn").isSome then setRow r "egn" v
      else r

/-- Model of `deklar.py::generate_deklar`: the one declaration row. -/
def generate_deklar (prod pok : DTable) (fields : List DField) (mapping : List DRule)
    (taxPeriod : String) (comp : Company) (ovr : String → Option Val) : Row :=
  deklarStep5 ovr
    (deklarStep4 fields mapping
      (deklarStep3 prod pok taxPeriod comp ovr fields mapping (deklarInit fields)))

/-! ### Generic lemmas about rows and lists -/

theorem setRow_same (r : Row) (k : String) (v : Val) : setRow r k v k = some v := by
  simp [setRow]

theorem setRow_other (r : Row) (k : String) (v : Val) (x : String) (h : x ≠ k) :
    setRow r k v x = r x := by
  simp [setRow, h]

theorem setRow_isSome (r : Row) (k : String) (v : Val) (x : String)
    (h : (r x).isSome) : ((setRow r k v) x).isSome := by
  by_cases hx : x = k <;> simp [setRow, hx, h]

theorem applySets_append (r : Row) (us vs : List (String × Val)) :
    applySets r (us ++ vs) = applySets (applySets r us) vs := by
  simp [applySets, List.foldl_append]

theorem applySets_notMem (us : List (String × Val)) (r : Row) (k : String)
    (h : ∀ p ∈ us, p.1 ≠ k) : applySets r us k = r k := by
  induction us generalizing r with
  | nil => rfl
  | cons p t ih =>
      have hp : p.1 ≠ k := h p (List.mem_cons_self p t)
      have ht : ∀ q ∈ t, q.1 ≠ k := fun q hq => h q (List.mem_cons_of_mem p hq)
      calc applySets (setRow r p.1 p.2) t k = setRow r p.1 p.2 k := ih _ ht
        _ = r k := setRow_other _ _ _ _ (fun hk => hp hk.symm)

theorem applySets_isSome (us : List (String × Val)) (r : Row) (x : String)
    (h : (r x).isSome) : ((applySets r us) x).isSome := by
  induction us generalizing r with
  | nil => exact h
  | cons p t ih => exact ih _ (setRow_isSome _ _ _ _ h)

theorem zfillChars_length (l : List Char) (w : Nat) :
    (zfillChars l w).length = max w l.length := by
  rw [zfillChars.eq_def]
  by_cases h : w ≤ l.length
  · simp [h, Nat.max_eq_right h]
  · have hlt : l.length < w := Nat.lt_of_not_le h
    simp only [if_neg h]
    match l with
    | [] => simp
    | c :: rest =>
        by_cases hc : c = '-' ∨ c = '+' <;>
          simp [hc, List.length_replicate, Nat.max_eq_left (Nat.le_of_lt hlt)] <;>
          omega

/-! ### C1 — grouping as a partition of the input lines -/

theorem sum_map_ite_eq {α : Type} [DecidableEq α] (keys : List α) (K : α) (c : ℕ) :
    (keys.map (fun k => if k = K then c else 0)).sum = keys.count K * c := by
  induction keys with
  | nil => simp
  | cons k t ih =>
      by_cases hk : k = K
      · subst hk
        simp [ih, List.count_cons_self, Nat.add_mul, Nat.add_comm]
      · simp [hk, ih, List.count_cons_of_ne (fun h => hk h.symm)]

theorem count_filter_key (lines : List JLine) (l : JLine) (k : String × String × String) :
    (lines.filter (fun x => keyOf x = some k)).count l =
      if keyOf l = some k then lines.count l else 0 := by
  by_cases h : keyOf l = some k
  · rw [if_pos h]
    exact List.count_filter (by simp [h])
  · rw [if_neg h]
    refine List.count_eq_zero_of_not_mem ?_
    intro hmem
    exact h (by simpa using (List.mem_filter.mp hmem).2)

theorem groupsOf_flatten_count (lines : List JLine) (l : JLine) :
    ((groupsOf lines).flatten).count l =
      if (keyOf l).isSome then lines.count l else 0 := by
  rw [groupsOf, List.count_flatten, List.map_map]
  simp only [Function.comp_def]
  rw [List.map_congr_left (fun k _ => count_filter_key lines l k)]
  cases hk : keyOf l with
  | none => simp
  | some K =>
      have h2 : ∀ k : String × String × String,
          (if (some K : Option (String × String × String)) = some k then lines.count l else 0)
            = if k = K then lines.count l else 0 := by
        intro k
        by_cases h : k = K
        · subst h; simp
        · rw [if_neg (fun hc => h (Option.some_inj.mp hc).symm), if_neg h]
      simp only [h2]
      rw [sum_map_ite_eq]
      simp only [Option.isSome_some, if_true]
      by_cases hmem : l ∈ lines
      · have hKmem : K ∈ groupKeys lines :=
          List.mem_dedup.mpr (List.mem_filterMap.mpr ⟨l, hmem, hk⟩)
        have hnd : (groupKeys lines).Nodup := List.nodup_dedup _
        rw [List.count_eq_one_of_mem hnd hKmem, Nat.one_mul]
      · have h0 : lines.count l = 0 := List.count_eq_zero_of_not_mem hmem
        simp [h0]

theorem countP_decide_eq {α : Type} [DecidableEq α] (l : List α) (K : α)
    (hnd : l.Nodup) (hmem : K ∈ l) : l.countP (fun k => decide (k = K)) = 1 := by
  induction l with
  | nil => cases hmem
  | cons a t ih =>
      rw [List.countP_cons]
      rcases List.nodup_cons.mp hnd with ⟨hnotin, hndt⟩
      rcases List.mem_cons.mp hmem with hKa | hKt
      · subst hKa
        have h0 : t.countP (fun k => decide (k = K)) = 0 := by
          refine List.countP_eq_zero.mpr ?_
          intro x hx
          simp only [decide_eq_true_eq]
          intro hxK
          exact hnotin (hxK ▸ hx)
        simp [h0]
      · have haK : a ≠ K := fun h => hnotin (h ▸ hKt)
        simp [ih hndt hKt, haK]

theorem groupsOf_membership_count (lines : List JLine) (l : JLine) :
    (groupsOf lines).countP (fun g => decide (l ∈ g)) =
      if (keyOf l).isSome ∧ l ∈ lines then 1 else 0 := by
  rw [groupsOf, List.countP_map]
  have hpred : ∀ k ∈ groupKeys lines,
      (((fun g => decide (l ∈ g)) ∘ fun k => lines.filter (fun x => keyOf x = some k)) k = true)
        ↔ (decide (keyOf l = some k ∧ l ∈ lines) = true) := by
    intro k _
    simp only [Function.comp_apply, decide_eq_true_eq, List.mem_filter]
    constructor
    · rintro ⟨h1, h2⟩
      exact ⟨by simpa using h2, h1⟩
    · rintro ⟨h1, h2⟩
      exact ⟨h2, by simpa using h1⟩
  rw [List.countP_congr hpred]
  cases hk : keyOf l with
  | none => simp
  | some K =>
      by_cases hmem : l ∈ lines
      · have hcong : ∀ k ∈ groupKeys lines,
            (decide ((some K : Option (String × String × String)) = some k ∧ l ∈ lines) = true)
              ↔ (decide (k = K) = true) := by
          intro k _
          simp only [decide_eq_true_eq]
          constructor
          · rintro ⟨h1, _⟩
            exact (Option.some_inj.mp h1).symm
          · rintro rfl
            exact ⟨rfl, hmem⟩
        rw [List.countP_congr hcong]
        have hKmem : K ∈ groupKeys lines :=
          List.mem_dedup.mpr (List.mem_filterMap.mpr ⟨l, hmem, hk⟩)
        have hnd : (groupKeys lines).Nodup := List.nodup_dedup _
        rw [countP_decide_eq _ _ hnd hKmem]
        simp [hmem]
      · have hcong : ∀ k ∈ groupKeys lines,
            (decide ((some K : Option (String × String × String)) = some k ∧ l ∈ lines) = true)
              ↔ ((fun _ => false) k = true) := by
          intro k _
          simp [hmem]
        rw [List.countP_congr hcong]
        simp [hmem]

/-- A Purchase line whose reference cell is null: its computed join key is
null. -/
def nullKeyLine : JLine :=
  { journal_type := "Purchase", purchase_ref := none, sales_move_name := some "X",
    partner_vat := some "BG1", partner_name := some "P", date := "2025-05-01",
    date_dt := none, doc_type_raw := none, document_type := some "1",
    jid := "10", debit := 10, credit := 0, tax_tag_ids := "A1" }

/-- C1, counterexample: a single Purchase line with a missing reference gets a
null join key and is dropped by `groupby` — it lands in *no* `DocumentGroup`,
so the multiset union of the groups (empty) differs from the input lines. -/
theorem c1_counterexample :
    keyOf nullKeyLine = none
    ∧ groupsOf [nullKeyLine] = []
    ∧ ((groupsOf [nullKeyLine]).flatten).count nullKeyLine = 0
    ∧ [nullKeyLine].count nullKeyLine = 1 := by
  refine ⟨rfl, rfl, rfl, rfl⟩

/-- C1 (amended): grouping is a partition of the lines *whose join key is
non-null*: every such line occurs in exactly one `DocumentGroup`, with its
full input multiplicity, while a line with a null join key (missing source
reference/move-name) is dropped by `groupby` and belongs to no group. -/
theorem c1_grouping_partition (lines : List JLine) (l : JLine) :
    ((groupsOf lines).flatten).count l = (if (keyOf l).isSome then lines.count l else 0)
    ∧ (groupsOf lines).countP (fun g => decide (l ∈ g))
        = (if (keyOf l).isSome ∧ l ∈ lines then 1 else 0) :=
  ⟨groupsOf_flatten_count lines l, groupsOf_membership_count lines l⟩

/-! ### C8 — join-key normalization -/

/-- C8, counterexample: `zfill` is sign-aware, so the short string `"-1"` is
*not* plainly left-padded with `'0'` — the zeros go after the sign. -/
theorem c8_counterexample :
    format_agg_col (some "-1") = some "-000000001"
    ∧ ("-000000001" : String) ≠ "00000000-1" := by
  refine ⟨rfl, by decide⟩

/-- C8 (amended): for every non-null source string the normalized join key
has length exactly 10 — the last 10 characters when longer than 10, else
Python `zfill` padding (zeros inserted *after* a leading `'-'`/`'+'` sign,
plain left-padding with `'0'` otherwise); `"INV-1"` normalizes to
`"00000INV-1"`, and a null source stays null. -/
theorem c8_key_normalization (s : String) :
    format_agg_col (some s)
      = some (if 10 < s.length then takeLastChars s 10 else zfill s 10)
    ∧ (if 10 < s.length then takeLastChars s 10 else zfill s 10).length = 10
    ∧ (s.toList.head? ≠ some '-' → s.toList.head? ≠ some '+' →
        zfill s 10 = String.mk (List.replicate (10 - s.length) '0' ++ s.toList))
    ∧ format_agg_col (some "INV-1") = some "00000INV-1"
    ∧ format_agg_col none = none := by
  refine ⟨?_, ?_, ?_, rfl, rfl⟩
  · rw [format_agg_col]
    by_cases h : 10 < s.length <;> simp [h]
  · by_cases h : 10 < s.length
    · simp only [if_pos h]
      show (s.toList.drop (s.toList.length - 10)).length = 10
      rw [List.length_drop]
      have : s.toList.length = s.length := rfl
      omega
    · simp only [if_neg h]
      show (zfillChars s.toList 10).length = 10
      rw [zfillChars_length]
      have : s.toList.length = s.length := rfl
      omega
  · intro hm hp
    rw [zfill, zfillChars.eq_def]
    by_cases h10 : 10 ≤ s.toList.length
    · have h1 : s.length = s.toList.length := rfl
      have h10' : 10 ≤ s.length := by omega
      have : (10 : Nat) - s.length = 0 := by omega
      simp [h10', this]
    · simp only [if_neg h10]
      match hs : s.toList with
      | [] =>
          have hl0 : s.length = 0 := by
            show s.toList.length = 0
            rw [hs]
            rfl
          simp only [hl0]
          decide
      | c :: rest =>
          have hc1 : c ≠ '-' := by
            intro h
            exact hm (by rw [hs, h]; rfl)
          have hc2 : c ≠ '+' := by
            intro h
            exact hp (by rw [hs, h]; rfl)
          have : ¬(c = '-' ∨ c = '+') := by
            rintro (h | h)
            · exact hc1 h
            · exact hc2 h
          have hlen2 : s.length = (c :: rest).length := by
            show s.toList.length = _
            rw [hs]
          simp [this, hlen2]

/-- Witness for `c8_key_normalization` at the spec's own example. -/
theorem c8_key_normalization_witness :
    format_agg_col (some "INV-1") = some (zfill "INV-1" 10)
    ∧ zfill "INV-1" 10 = String.mk (List.replicate (10 - "INV-1".length) '0' ++ "INV-1".toList) := by
  have h := c8_key_normalization "INV-1"
  refine ⟨?_, h.2.2.1 (by decide) (by decide)⟩
  have h1 := h.1
  simpa using h1

/-! ### C2 — accumulation is sum-preserving and order-independent -/

theorem getAmt_addAmt (d : List (Nat × ℚ)) (k : Nat) (a : ℚ) (f : Nat) :
    getAmt (addAmt d k a) f = getAmt d f + (if k = f then a else 0) := by
  induction d with
  | nil =>
      by_cases h : k = f
      · subst h
        simp [addAmt, getAmt, List.lookup]
      · have hb : (f == k) = false := beq_eq_false_iff_ne.mpr (fun hc => h hc.symm)
        simp [addAmt, getAmt, List.lookup, hb, h]
  | cons p t ih =>
      obtain ⟨k', v⟩ := p
      by_cases hk : k' = k
      · subst hk
        by_cases hf : k' = f
        · subst hf
          simp [addAmt, getAmt, List.lookup]
        · have hb : (f == k') = false := beq_eq_false_iff_ne.mpr (fun hc => hf hc.symm)
          simp [addAmt, getAmt, List.lookup, hb, hf]
      · by_cases hf : k' = f
        · subst hf
          have hkf : ¬k = k' := fun h => hk h.symm
          simp [addAmt, getAmt, List.lookup, hk, hkf]
        · have hb : (f == k') = false := beq_eq_false_iff_ne.mpr (fun hc => hf hc.symm)
          have := ih
          simp only [addAmt, if_neg hk, getAmt, List.lookup, hb] at this ⊢
          simpa [getAmt, List.lookup, hb] using this

theorem getAmt_foldl_cols (cols : List Nat) (a : ℚ) (d : List (Nat × ℚ)) (f : Nat) :
    getAmt (cols.foldl (fun d c => addAmt d c a) d) f
      = getAmt d f + (cols.count f : ℚ) * a := by
  induction cols generalizing d with
  | nil => simp
  | cons c t ih =>
      rw [List.foldl_cons, ih, getAmt_addAmt, List.count_cons]
      by_cases h : c = f
      · subst h
        simp only [beq_self_eq_true, if_true]
        push_cast
        ring
      · have hb : (c == f) = false := beq_eq_false_iff_ne.mpr h
        simp only [hb, if_neg h, if_false]
        push_cast
        ring

theorem accumLine_fold (tm : List MapEntry) (l : JLine) (tags : List String)
    (acc : List (Nat × ℚ) × List (Nat × ℚ)) (f : Nat) :
    getAmt ((tags.foldl
        (fun acc tag =>
          match tm.find? (fun m => m.tax_grid = tag) with
          | none => acc
          | some m =>
              (m.prodagbi_columns.foldl (fun d cid => addAmt d cid (amountOf l)) acc.1,
               m.pokupki_columns.foldl (fun d cid => addAmt d cid (amountOf l)) acc.2))
        acc).1) f
        = getAmt acc.1 f
          + (((tags.map (fun tag =>
              match tm.find? (fun m => m.tax_grid = tag) with
              | some m => m.prodagbi_columns.count f
              | none => 0)).sum : ℕ) : ℚ) * amountOf l
    ∧ getAmt ((tags.foldl
        (fun acc tag =>
          match tm.find? (fun m => m.tax_grid = tag) with
          | none => acc
          | some m =>
              (m.prodagbi_columns.foldl (fun d cid => addAmt d cid (amountOf l)) acc.1,
               m.pokupki_columns.foldl (fun d cid => addAmt d cid (amountOf l)) acc.2))
        acc).2) f
        = getAmt acc.2 f
          + (((tags.map (fun tag =>
              match tm.find? (fun m => m.tax_grid = tag) with
              | some m => m.pokupki_columns.count f
              | none => 0)).sum : ℕ) : ℚ) * amountOf l := by
  induction tags generalizing acc with
  | nil => simp
  | cons tag t ih =>
      rw [List.foldl_cons, List.map_cons, List.map_cons]
      cases hfind : tm.find? (fun m => m.tax_grid = tag) with
      | none =>
          have h := ih acc
          simp only [hfind] at h ⊢
          rw [List.sum_cons, List.sum_cons, h.1, h.2]
          constructor <;> · push_cast; ring
      | some m =>
          have h := ih ((m.prodagbi_columns.foldl (fun d cid => addAmt d cid (amountOf l)) acc.1,
            m.pokupki_columns.foldl (fun d cid => addAmt d cid (amountOf l)) acc.2))
          simp only [hfind] at h ⊢
          rw [List.sum_cons, List.sum_cons, h.1, h.2]
          simp only [getAmt_foldl_cols]
          constructor <;> · push_cast; ring

theorem getAmt_accumGroup (tm : List MapEntry) (lines : List JLine)
    (acc : List (Nat × ℚ) × List (Nat × ℚ)) (f : Nat) :
    getAmt ((lines.foldl (accumLine tm) acc).1) f
      = getAmt acc.1 f + (lines.map (fun l => (lineMultP tm f l : ℚ) * amountOf l)).sum
    ∧ getAmt ((lines.foldl (accumLine tm) acc).2) f
      = getAmt acc.2 f + (lines.map (fun l => (lineMultK tm f l : ℚ) * amountOf l)).sum := by
  induction lines generalizing acc with
  | nil => simp
  | cons l t ih =>
      rw [List.foldl_cons, List.map_cons, List.map_cons, List.sum_cons, List.sum_cons]
      have hstep := accumLine_fold tm l (parseTags l.tax_tag_ids) acc f
      have h := ih (accumLine tm acc l)
      rw [h.1, h.2]
      simp only [accumLine]
      rw [hstep.1, hstep.2]
      simp only [lineMultP, lineMultK]
      constructor <;> ring

/-- C2: for every mapping table, document group and target field id (of
either output table), the accumulated value equals the sum over the group's
lines of (number of tag occurrences on the line whose mapping entry lists
that field id) × (the line's resolved signed amount) — no double counting,
no omission, unknown tags contributing nothing — and the accumulated value
is invariant under any reordering of the lines in the group. -/
theorem c2_accumulation_sum (tm : List MapEntry) (lines lines' : List JLine) (f : Nat)
    (hperm : lines.Perm lines') :
    getAmt (accumGroup tm lines).1 f
        = (lines.map (fun l => (lineMultP tm f l : ℚ) * amountOf l)).sum
    ∧ getAmt (accumGroup tm lines).2 f
        = (lines.map (fun l => (lineMultK tm f l : ℚ) * amountOf l)).sum
    ∧ getAmt (accumGroup tm lines).1 f = getAmt (accumGroup tm lines').1 f
    ∧ getAmt (accumGroup tm lines).2 f = getAmt (accumGroup tm lines').2 f := by
  have hP : ∀ ls : List JLine, getAmt (accumGroup tm ls).1 f
      = (ls.map (fun l => (lineMultP tm f l : ℚ) * amountOf l)).sum := by
    intro ls
    have h := (getAmt_accumGroup tm ls ([], []) f).1
    rw [accumGroup]
    rw [h]
    simp [getAmt, List.lookup]
  have hK : ∀ ls : List JLine, getAmt (accumGroup tm ls).2 f
      = (ls.map (fun l => (lineMultK tm f l : ℚ) * amountOf l)).sum := by
    intro ls
    have h := (getAmt_accumGroup tm ls ([], []) f).2
    rw [accumGroup]
    rw [h]
    simp [getAmt, List.lookup]
  refine ⟨hP lines, hK lines, ?_, ?_⟩
  · rw [hP lines, hP lines']
    exact (hperm.map _).sum_eq
  · rw [hK lines, hK lines']
    exact (hperm.map _).sum_eq

/-- Witness data: mapping with fan-out and a duplicate-target tag pair. -/
def tmW : List MapEntry :=
  [{ tax_grid := "A1", prodagbi_columns := [5], pokupki_columns := [7] },
   { tax_grid := "B2", prodagbi_columns := [5], pokupki_columns := [] }]

def lW1 : JLine :=
  { journal_type := "Sales", purchase_ref := none, sales_move_name := some "S1",
    partner_vat := some "BG1", partner_name := some "P", date := "2025-05-01",
    date_dt := none, doc_type_raw := none, document_type := some "1",
    jid := "9", debit := 120, credit := 0, tax_tag_ids := "A1, B2" }

def lW2 : JLine :=
  { journal_type := "Sales", purchase_ref := none, sales_move_name := some "S1",
    partner_vat := some "BG1", partner_name := some "P", date := "2025-05-01",
    date_dt := none, doc_type_raw := none, document_type := some "1",
    jid := "10", debit := 0, credit := 30, tax_tag_ids := "A1" }

/-- Witness for `c2_accumulation_sum`: two lines, one with two tags hitting
the same sales field, in both orders. -/
theorem c2_accumulation_sum_witness :
    ([lW1, lW2] : List JLine).Perm [lW2, lW1]
    ∧ getAmt (accumGroup tmW [lW1, lW2]).1 5 = -270
    ∧ getAmt (accumGroup tmW [lW2, lW1]).1 5 = -270 := by
  have hperm : ([lW1, lW2] : List JLine).Perm [lW2, lW1] := List.Perm.swap lW2 lW1 []
  have h := c2_accumulation_sum tmW [lW1, lW2] [lW2, lW1] 5 hperm
  refine ⟨hperm, ?_, ?_⟩
  · rw [h.1]
    with_unfolding_all decide
  · rw [← h.2.2.1, h.1]
    with_unfolding_all decide

/-! ### C3 — signed amount resolution, with end-to-end scenario -/

/-- The spec's §8 scenario line: a sales-journal line, tag `A1`, debit 120,
credit 0, document `INV-1`, dated 2025-05-01. -/
def lineC3 : JLine :=
  { journal_type := "Sales", purchase_ref := none, sales_move_name := some "INV-1",
    partner_vat := some "BG123", partner_name := some "Partner", date := "2025-05-01",
    date_dt := some (2025, 5, 1), doc_type_raw := some "1", document_type := some "1",
    jid := "9", debit := 120, credit := 0, tax_tag_ids := "A1" }

/-- Model of `A1 → sales field "base_22"` (schema field id 5). -/
def tmC3 : List MapEntry :=
  [{ tax_grid := "A1", prodagbi_columns := [5], pokupki_columns := [] }]

def psC3 : Schema :=
  { schema_name := "prodagbi_schema",
    fields := [
      { id := 1, internal_name := "journal_row_number", type := "object", is_amount := false,
        length := some 4, decimals := none, align := none, fill_char := none },
      { id := 5, internal_name := "base_22", type := "float64", is_amount := true,
        length := some 10, decimals := some 2, align := none, fill_char := none }] }

def pkC3 : Schema := { schema_name := "pokupki_schema", fields := [] }

def compC3 : Company := { vat := "BG999", legal_name := "Comp", default_submitter := none }

/-- C3: the resolved signed amount follows the journal direction — for the
purchases journal (`journal_id/.id = "10"`) debit if positive else minus
credit, for the sales journal (`"9"`) minus debit if positive else credit,
and debit minus credit for any other journal; and the spec's scenario — one
sales-direction line with debit 120, credit 0 and tag `A1 → base_22` —
produces exactly one sales row, whose `base_22` is −120. -/
theorem c3_amount_resolution :
    (∀ d c : ℚ, resolveAmount "10" d c = if 0 < d then d else -c)
    ∧ (∀ d c : ℚ, resolveAmount "9" d c = if 0 < d then -d else c)
    ∧ (∀ j : String, j ≠ "10" → j ≠ "9" → ∀ d c : ℚ, resolveAmount j d c = d - c)
    ∧ (process_journal tmC3 psC3 pkC3 compC3 [lineC3]).1.map (fun r => r "base_22")
        = [some (Val.num (-120))]
    ∧ (process_journal tmC3 psC3 pkC3 compC3 [lineC3]).1.length = 1 := by
  refine ⟨?_, ?_, ?_, by decide, rfl⟩
  · intro d c
    simp [resolveAmount]
  · intro d c
    simp [resolveAmount]
  · intro j h10 h9 d c
    simp [resolveAmount, h10, h9]

/-- Witness for `c3_amount_resolution` discharging the direction hypotheses
at a concrete non-sales non-purchase journal id. -/
theorem c3_amount_resolution_witness :
    resolveAmount "5" 7 3 = 4 ∧ resolveAmount "10" 7 3 = 7 ∧ resolveAmount "9" 7 3 = -7 := by
  refine ⟨?_, ?_, ?_⟩
  · rw [c3_amount_resolution.2.2.1 "5" (by decide) (by decide) 7 3]
    norm_num
  · rw [c3_amount_resolution.1 7 3]
    norm_num
  · rw [c3_amount_resolution.2.1 7 3]
    norm_num

/-! ### C4 — fixed-width encoding has exact line length -/

theorem pyRjustChars_length (s : List Char) (n : Nat) (c : Char) :
    (pyRjustChars s n c).length = max n s.length := by
  rw [pyRjustChars]
  split <;> simp <;> omega

theorem pyLjustChars_length (s : List Char) (n : Nat) (c : Char) :
    (pyLjustChars s n c).length = max n s.length := by
  rw [pyLjustChars]
  split <;> simp <;> omega

theorem safety_pass_length (s2 : List Char) (n : Nat) (f : Char) :
    (if s2.length = n then s2 else if n < s2.length then s2.take n else pyLjustChars s2 n f).length
      = n := by
  split
  · assumption
  · split
    · simp only [List.length_take]
      omega
    · rw [pyLjustChars_length]
      omega

theorem padExact_length (s : List Char) (n : Nat) (a : String) (f : Char) :
    (padExact s n a f).length = n :=
  safety_pass_length _ n f

theorem format_value_for_txt_some (v : Option Val) (f : OutField) (n : Nat)
    (h : f.length = some n) :
    ∃ s, format_value_for_txt v f = some s ∧ s.length = n := by
  simp only [format_value_for_txt, h]
  exact ⟨_, rfl, padExact_length _ _ _ _⟩

theorem encodeParts_some (fields : List OutField) (g : OutField → Option Val)
    (h : ∀ f ∈ fields, (f.length).isSome) :
    ∃ parts : List String,
      (fields.mapM (fun fd => format_value_for_txt (g fd) fd)) = some parts
      ∧ parts.map String.length = fields.map (fun f => (f.length).getD 0) := by
  induction fields with
  | nil => exact ⟨[], rfl, rfl⟩
  | cons f t ih =>
      obtain ⟨n, hn⟩ := Option.isSome_iff_exists.mp (h f (List.mem_cons_self f t))
      obtain ⟨s, hs, hslen⟩ := format_value_for_txt_some (g f) f n hn
      obtain ⟨parts, hparts, hlens⟩ := ih (fun x hx => h x (List.mem_cons_of_mem f hx))
      refine ⟨s :: parts, ?_, ?_⟩
      · rw [List.mapM_cons, hs, hparts]
        rfl
      · simp [hslen, hlens, hn]

theorem join_foldl_length (l : List String) (a : String) :
    (l.foldl (fun r s => r ++ s) a).length = a.length + (l.map String.length).sum := by
  induction l generalizing a with
  | nil => simp
  | cons s t ih =>
      rw [List.foldl_cons, ih, String.length_append, List.map_cons, List.sum_cons]
      omega

theorem join_length (l : List String) : (String.join l).length = (l.map String.length).sum := by
  rw [String.join, join_foldl_length]
  simp

theorem insField_perm (x : OutField) (l : List OutField) : (insField x l).Perm (x :: l) := by
  induction l with
  | nil => exact List.Perm.refl _
  | cons y t ih =>
      rw [insField]
      split
      · exact (ih.cons y).trans (List.Perm.swap x y t)
      · exact List.Perm.refl _

theorem sortFields_foldl_perm (l acc : List OutField) :
    (l.foldl (fun acc x => insField x acc) acc).Perm (acc ++ l) := by
  induction l generalizing acc with
  | nil => simp
  | cons x t ih =>
      rw [List.foldl_cons]
      refine (ih (insField x acc)).trans ?_
      have h1 : (insField x acc ++ t).Perm ((x :: acc) ++ t) :=
        (insField_perm x acc).append_right t
      refine h1.trans ?_
      exact List.perm_middle.symm

theorem sortFieldsById_perm (l : List OutField) : (sortFieldsById l).Perm l := by
  have h := sortFields_foldl_perm l []
  simpa [sortFieldsById] using h

theorem encodeRow_some (cols : List String) (r : String → Val) (schema : Schema)
    (h : ∀ f ∈ schema.fields, (f.length).isSome) :
    ∃ line, encodeRow cols r schema = some line
      ∧ line.length = (schema.fields.map (fun f => (f.length).getD 0)).sum := by
  have hperm := sortFieldsById_perm schema.fields
  have h' : ∀ f ∈ sortFieldsById schema.fields, (f.length).isSome :=
    fun f hf => h f (hperm.mem_iff.mp hf)
  obtain ⟨parts, hparts, hlens⟩ := encodeParts_some (sortFieldsById schema.fields)
    (fun fd => if fd.internal_name ∈ cols then some (r fd.internal_name) else none) h'
  refine ⟨String.join parts, ?_, ?_⟩
  · rw [encodeRow, hparts]
    rfl
  · rw [join_length, hlens]
    exact (hperm.map (fun f => (f.length).getD 0)).sum_eq

/-- The spec's truncation-scenario field: monetary, width 6, two decimals. -/
def mon6 : OutField :=
  { id := 1, internal_name := "amount", type := "float64", is_amount := true,
    length := some 6, decimals := some 2, align := none, fill_char := none }

/-- C4: for a schema in which every field declares a width, every encoded
line is the concatenation (in ascending field id order) of per-field strings
of exactly the declared widths, so its length is the sum of all declared
widths; and the spec's scenario — a monetary field of width 6, two decimals,
value 12345.678 — first formats to `"12345.68"` and is then truncated to its
first 6 characters, `"12345."`. -/
theorem c4_fixed_width (t : OutTable) (schema : Schema)
    (h : ∀ f ∈ schema.fields, (f.length).isSome) :
    (∃ lines, df_to_fixed_width_txt t schema = some lines
      ∧ ∀ line ∈ lines, line.length = (schema.fields.map (fun f => (f.length).getD 0)).sum)
    ∧ fmtRaw (Val.num (12345678/1000)) "float64" true 2 = "12345.68"
    ∧ format_value_for_txt (some (Val.num (12345678/1000))) mon6 = some "12345." := by
  refine ⟨?_, by with_unfolding_all decide, by with_unfolding_all decide⟩
  rw [df_to_fixed_width_txt]
  induction t.rows with
  | nil => exact ⟨[], rfl, by simp⟩
  | cons r rest ih =>
      obtain ⟨line, hline, hlen⟩ := encodeRow_some t.cols r schema h
      obtain ⟨lines, hlines, hall⟩ := ih
      refine ⟨line :: lines, ?_, ?_⟩
      · rw [List.mapM_cons, hline, hlines]
        rfl
      · intro x hx
        rcases List.mem_cons.mp hx with hx | hx
        · exact hx ▸ hlen
        · exact hall x hx

/-- Witness for `c4_fixed_width` on a concrete two-field schema and row. -/
theorem c4_fixed_width_witness :
    ∃ lines,
      df_to_fixed_width_txt
        { cols := ["amount"], rows := [fun _ => Val.num (12345678/1000)] }
        { schema_name := "prodagbi_schema", fields := [mon6,
          { id := 2, internal_name := "name", type := "object", is_amount := false,
            length := some 4, decimals := none, align := none, fill_char := none }] }
        = some lines
      ∧ ∀ line ∈ lines, line.length = 10 := by
  obtain ⟨lines, hl, hall⟩ := (c4_fixed_width
    { cols := ["amount"], rows := [fun _ => Val.num (12345678/1000)] }
    { schema_name := "prodagbi_schema", fields := [mon6,
      { id := 2, internal_name := "name", type := "object", is_amount := false,
        length := some 4, decimals := none, align := none, fill_char := none }] }
    (by decide)).1
  refine ⟨lines, hl, fun line hline => ?_⟩
  have := hall line hline
  simpa using this

/-! ### C7 — the document-type field of materialized rows -/

theorem dateUpdates_keys (l : JLine) :
    ∀ p ∈ dateUpdates l, p.1 = "tax_period" ∨ p.1 = "document_date" := by
  rw [dateUpdates.eq_def]
  cases l.date_dt with
  | some ymd =>
      obtain ⟨y, m, d⟩ := ymd
      simp
  | none =>
      cases parseISODate l.date with
      | some ymd =>
          obtain ⟨y, m, d⟩ := ymd
          simp
      | none => simp

theorem gosUpdates_keys (schema : Schema) :
    ∀ p ∈ gosUpdates schema, p.1 = "goods_or_service_description" := by
  rw [gosUpdates]
  split
  · split
    · simp
    · split <;> simp
  · simp

theorem create_output_row_document_type (l : JLine) (schema : Schema) (n : Nat) (comp : Company) :
    (create_output_row l schema n comp) "document_type"
      = some (match l.doc_type_raw with
          | some v => Val.str (zfill v 2)
          | none => Val.str "!!") := by
  rw [create_output_row, outputRowUpdates]
  rw [applySets_append, applySets_append, applySets_append, applySets_append]
  rw [applySets_notMem _ _ _ (by simp)]
  rw [applySets_notMem (gosUpdates schema) _ _
    (fun p hp => by rw [gosUpdates_keys schema p hp]; decide)]
  simp [applySets, setRow]

theorem create_output_row_row_number (l : JLine) (schema : Schema) (n : Nat) (comp : Company) :
    (create_output_row l schema n comp) "journal_row_number"
      = some (Val.str (toString n)) := by
  rw [create_output_row, outputRowUpdates]
  rw [applySets_append, applySets_append, applySets_append, applySets_append]
  rw [applySets_notMem _ _ _ (by simp)]
  rw [applySets_notMem (gosUpdates schema) _ _
    (fun p hp => by rw [gosUpdates_keys schema p hp]; decide)]
  simp [applySets, setRow]

/-- A fully normalized ledger line that *does* carry a canonical document
type value (`"1"`), while the raw Odoo column is absent (the normalization
renamed it away). -/
def normalizedLine : JLine :=
  { journal_type := "Sales", purchase_ref := none, sales_move_name := some "INV-9",
    partner_vat := some "BG77", partner_name := some "P", date := "2025-05-02",
    date_dt := some (2025, 5, 2), doc_type_raw := none, document_type := some "1",
    jid := "9", debit := 50, credit := 0, tax_tag_ids := "A1" }

/-- C7 (code bug): `create_output_row` consults only the raw Odoo column
`move_id/l10n_bg_document_type`; on a line that carries the pipeline's
canonical `document_type` column value `"1"` (the raw column having been
renamed away by `normalize_journal_columns`), the materialized row holds the
sentinel `"!!"` instead of the padded `"01"`. -/
theorem c7_document_type_sentinel :
    normalizedLine.document_type = some "1"
    ∧ (create_output_row normalizedLine psC3 1 compC3) "document_type" = some (Val.str "!!")
    ∧ zfill "1" 2 = "01" := by
  refine ⟨rfl, ?_, by decide⟩
  rw [create_output_row_document_type]
  rfl

/-! ### C6 — row emission, schema-completeness and row numbering -/

theorem foldl_setDefault_isSome (fields : List OutField) (r : Row) (x : String)
    (h : x ∈ fields.map (fun f => f.internal_name) ∨ (r x).isSome) :
    ((fields.foldl (fun r f => setRow r f.internal_name (fieldDefault f)) r) x).isSome := by
  induction fields generalizing r with
  | nil =>
      rcases h with h | h
      · simp at h
      · exact h
  | cons f t ih =>
      rw [List.foldl_cons]
      by_cases hx : x = f.internal_name
      · refine ih _ (Or.inr ?_)
        rw [hx, setRow_same]
        rfl
      · rcases h with h | h
        · rw [List.map_cons] at h
          rcases List.mem_cons.mp h with h1 | h1
          · exact absurd h1 hx
          · exact ih _ (Or.inl h1)
        · exact ih _ (Or.inr (setRow_isSome _ _ _ _ h))

theorem initRow_isSome (schema : Schema) (f : OutField) (hf : f ∈ schema.fields) :
    ((initRow schema) f.internal_name).isSome := by
  rw [initRow]
  exact foldl_setDefault_isSome _ _ _ (Or.inl (List.mem_map_of_mem _ hf))

theorem create_output_row_isSome (l : JLine) (schema : Schema) (n : Nat) (comp : Company)
    (f : OutField) (hf : f ∈ schema.fields) :
    ((create_output_row l schema n comp) f.internal_name).isSome := by
  rw [create_output_row]
  exact applySets_isSome _ _ _ (initRow_isSome schema f hf)

theorem applyAmounts_isSome (r : Row) (idToCol : Nat → Option String)
    (amts : List (Nat × ℚ)) (x : String) (h : (r x).isSome) :
    ((applyAmounts r idToCol amts) x).isSome := by
  induction amts generalizing r with
  | nil => exact h
  | cons p t ih =>
      rw [applyAmounts, List.foldl_cons]
      cases hc : idToCol p.1 with
      | none =>
          simp only [hc]
          exact ih r h
      | some c =>
          simp only [hc]
          have h2 := ih (setRow r c (Val.num p.2)) (setRow_isSome _ _ _ _ h)
          rw [applyAmounts] at h2
          exact h2

theorem applyAmounts_other (r : Row) (idToCol : Nat → Option String)
    (amts : List (Nat × ℚ)) (k : String)
    (h : ∀ p ∈ amts, idToCol p.1 ≠ some k) :
    (applyAmounts r idToCol amts) k = r k := by
  induction amts generalizing r with
  | nil => rfl
  | cons p t ih =>
      rw [applyAmounts, List.foldl_cons]
      have ht : ∀ q ∈ t, idToCol q.1 ≠ some k := fun q hq => h q (List.mem_cons_of_mem p hq)
      cases hc : idToCol p.1 with
      | none =>
          simp only [hc]
          have h2 := ih r ht
          rw [applyAmounts] at h2
          exact h2
      | some c =>
          simp only [hc]
          have hck : c ≠ k := by
            intro hck
            exact h p (List.mem_cons_self p t) (by rw [hc, hck])
          have h2 := ih (setRow r c (Val.num p.2)) ht
          rw [applyAmounts] at h2
          exact h2.trans (setRow_other _ _ _ _ (fun he => hck he.symm))

theorem addAmt_keys (d : List (Nat × ℚ)) (k : Nat) (a : ℚ) :
    ∀ p ∈ addAmt d k a, p.1 = k ∨ p.1 ∈ d.map (fun q => q.1) := by
  induction d with
  | nil =>
      intro p hp
      rw [addAmt] at hp
      rcases List.mem_singleton.mp hp with rfl
      exact Or.inl rfl
  | cons q t ih =>
      obtain ⟨k', v⟩ := q
      intro p hp
      rw [addAmt] at hp
      split at hp
      · rcases List.mem_cons.mp hp with rfl | hp
        · rename_i hkk
          exact Or.inl hkk
        · refine Or.inr ?_
          rw [List.map_cons]
          exact List.mem_cons_of_mem _ (List.mem_map_of_mem _ hp)
      · rcases List.mem_cons.mp hp with rfl | hp
        · refine Or.inr ?_
          rw [List.map_cons]
          exact List.mem_cons_self _ _
        · rcases ih p hp with h1 | h1
          · exact Or.inl h1
          · refine Or.inr ?_
            rw [List.map_cons]
            exact List.mem_cons_of_mem _ h1

theorem foldl_addAmt_keys (cols : List Nat) (a : ℚ) (d : List (Nat × ℚ)) :
    ∀ p ∈ cols.foldl (fun d c => addAmt d c a) d, p.1 ∈ cols ∨ p.1 ∈ d.map (fun q => q.1) := by
  induction cols generalizing d with
  | nil =>
      intro p hp
      exact Or.inr (List.mem_map_of_mem _ hp)
  | cons c t ih =>
      intro p hp
      rw [List.foldl_cons] at hp
      rcases ih (addAmt d c a) p hp with h | h
      · exact Or.inl (List.mem_cons_of_mem c h)
      · rw [List.mem_map] at h
        obtain ⟨q, hq, hq1⟩ := h
        rcases addAmt_keys d c a q hq with h1 | h1
        · refine Or.inl ?_
          rw [← hq1, h1]
          exact List.mem_cons_self c t
        · exact Or.inr (hq1 ▸ h1)

theorem accumTags_keys (tm : List MapEntry) (l : JLine) (tags : List String)
    (acc : List (Nat × ℚ) × List (Nat × ℚ)) :
    (∀ p ∈ (tags.foldl
        (fun acc tag =>
          match tm.find? (fun m => m.tax_grid = tag) with
          | none => acc
          | some m =>
              (m.prodagbi_columns.foldl (fun d cid => addAmt d cid (amountOf l)) acc.1,
               m.pokupki_columns.foldl (fun d cid => addAmt d cid (amountOf l)) acc.2))
        acc).1,
      (∃ m ∈ tm, p.1 ∈ m.prodagbi_columns) ∨ p.1 ∈ acc.1.map (fun q => q.1))
    ∧ (∀ p ∈ (tags.foldl
        (fun acc tag =>
          match tm.find? (fun m => m.tax_grid = tag) with
          | none => acc
          | some m =>
              (m.prodagbi_columns.foldl (fun d cid => addAmt d cid (amountOf l)) acc.1,
               m.pokupki_columns.foldl (fun d cid => addAmt d cid (amountOf l)) acc.2))
        acc).2,
      (∃ m ∈ tm, p.1 ∈ m.pokupki_columns) ∨ p.1 ∈ acc.2.map (fun q => q.1)) := by
  induction tags generalizing acc with
  | nil =>
      exact ⟨fun p hp => Or.inr (List.mem_map_of_mem _ hp),
             fun p hp => Or.inr (List.mem_map_of_mem _ hp)⟩
  | cons tag t ih =>
      rw [List.foldl_cons]
      cases hfind : tm.find? (fun m => m.tax_grid = tag) with
      | none =>
          simp only [hfind]
          exact ih acc
      | some m =>
          simp only [hfind]
          have hm : m ∈ tm := List.mem_of_find?_eq_some hfind
          have hnext := ih
            ((m.prodagbi_columns.foldl (fun d cid => addAmt d cid (amountOf l)) acc.1,
              m.pokupki_columns.foldl (fun d cid => addAmt d cid (amountOf l)) acc.2))
          constructor
          · intro p hp
            rcases hnext.1 p hp with h | h
            · exact Or.inl h
            · rw [List.mem_map] at h
              obtain ⟨q, hq, hq1⟩ := h
              rcases foldl_addAmt_keys m.prodagbi_columns (amountOf l) acc.1 q hq with h1 | h1
              · exact Or.inl ⟨m, hm, hq1 ▸ h1⟩
              · exact Or.inr (hq1 ▸ h1)
          · intro p hp
            rcases hnext.2 p hp with h | h
            · exact Or.inl h
            · rw [List.mem_map] at h
              obtain ⟨q, hq, hq1⟩ := h
              rcases foldl_addAmt_keys m.pokupki_columns (amountOf l) acc.2 q hq with h1 | h1
              · exact Or.inl ⟨m, hm, hq1 ▸ h1⟩
              · exact Or.inr (hq1 ▸ h1)

theorem accumFold_keys (tm : List MapEntry) (lines : List JLine)
    (acc : List (Nat × ℚ) × List (Nat × ℚ))
    (hacc1 : ∀ p ∈ acc.1, ∃ m ∈ tm, p.1 ∈ m.prodagbi_columns)
    (hacc2 : ∀ p ∈ acc.2, ∃ m ∈ tm, p.1 ∈ m.pokupki_columns) :
    (∀ p ∈ (lines.foldl (accumLine tm) acc).1, ∃ m ∈ tm, p.1 ∈ m.prodagbi_columns)
    ∧ (∀ p ∈ (lines.foldl (accumLine tm) acc).2, ∃ m ∈ tm, p.1 ∈ m.pokupki_columns) := by
  induction lines generalizing acc with
  | nil => exact ⟨hacc1, hacc2⟩
  | cons l t ih =>
      rw [List.foldl_cons]
      have hstep := accumTags_keys tm l (parseTags l.tax_tag_ids) acc
      refine ih (accumLine tm acc l) ?_ ?_
      · intro p hp
        rw [accumLine] at hp
        rcases hstep.1 p hp with h | h
        · exact h
        · rw [List.mem_map] at h
          obtain ⟨q, hq, hq1⟩ := h
          exact hq1 ▸ hacc1 q hq
      · intro p hp
        rw [accumLine] at hp
        rcases hstep.2 p hp with h | h
        · exact h
        · rw [List.mem_map] at h
          obtain ⟨q, hq, hq1⟩ := h
          exact hq1 ▸ hacc2 q hq

theorem accumGroup_keys (tm : List MapEntry) (lines : List JLine) :
    (∀ p ∈ (accumGroup tm lines).1, ∃ m ∈ tm, p.1 ∈ m.prodagbi_columns)
    ∧ (∀ p ∈ (accumGroup tm lines).2, ∃ m ∈ tm, p.1 ∈ m.pokupki_columns) := by
  rw [accumGroup]
  exact accumFold_keys tm lines ([], []) (by simp) (by simp)

theorem range_map_shift (n c : Nat) (F : Nat → Option Val) :
    (List.range (n+1)).map (fun i => F (c + i))
      = F (c + 0) :: (List.range n).map (fun i => F ((c+1) + i)) := by
  rw [List.range_succ_eq_map, List.map_cons, List.map_map]
  congr 1
  refine List.map_congr_left fun i _ => ?_
  show F (c + (i+1)) = F (c+1+i)
  congr 1
  omega

theorem processGroupsAux_cons (tm : List MapEntry) (ps pk : Schema) (comp : Company)
    (h : JLine) (t : List JLine) (rest : List (List JLine)) (pc kc : Nat) :
    processGroupsAux tm ps pk comp ((h :: t) :: rest) pc kc
      = ((if (accumGroup tm (h :: t)).1 ≠ [] then
            [applyAmounts (create_output_row h ps pc comp) (schemaIdToCol ps)
              (accumGroup tm (h :: t)).1]
          else [])
          ++ (processGroupsAux tm ps pk comp rest
              (if (accumGroup tm (h :: t)).1 ≠ [] then pc + 1 else pc)
              (if (accumGroup tm (h :: t)).2 ≠ [] then kc + 1 else kc)).1,
         (if (accumGroup tm (h :: t)).2 ≠ [] then
            [applyAmounts (create_output_row h pk kc comp) (schemaIdToCol pk)
              (accumGroup tm (h :: t)).2]
          else [])
          ++ (processGroupsAux tm ps pk comp rest
              (if (accumGroup tm (h :: t)).1 ≠ [] then pc + 1 else pc)
              (if (accumGroup tm (h :: t)).2 ≠ [] then kc + 1 else kc)).2) := rfl

theorem processGroupsAux_spec_prodagbi (tm : List MapEntry) (ps pk : Schema) (comp : Company)
    (groups : List (List JLine))
    (hp : ∀ m ∈ tm, ∀ cid ∈ m.prodagbi_columns,
      schemaIdToCol ps cid ≠ some "journal_row_number") :
    ∀ pc kc : Nat,
    (processGroupsAux tm ps pk comp groups pc kc).1.length
        = groups.countP (fun g => !(accumGroup tm g).1.isEmpty)
    ∧ (∀ r ∈ (processGroupsAux tm ps pk comp groups pc kc).1,
        ∀ f ∈ ps.fields, (r f.internal_name).isSome)
    ∧ (processGroupsAux tm ps pk comp groups pc kc).1.map (fun r => r "journal_row_number")
        = (List.range (processGroupsAux tm ps pk comp groups pc kc).1.length).map
            (fun i => some (Val.str (toString (pc + i)))) := by
  induction groups with
  | nil =>
      intro pc kc
      exact ⟨rfl, by simp [processGroupsAux], by simp [processGroupsAux]⟩
  | cons g rest ih =>
      intro pc kc
      match g with
      | [] =>
          have hstep : processGroupsAux tm ps pk comp ([] :: rest) pc kc
              = processGroupsAux tm ps pk comp rest pc kc := rfl
          rw [hstep, List.countP_cons]
          have hempty : (!(accumGroup tm ([] : List JLine)).1.isEmpty) = false := rfl
          rw [hempty]
          obtain ⟨h1, h2, h3⟩ := ih pc kc
          exact ⟨by rw [h1]; try simp, h2, h3⟩
      | h :: t =>
          rw [processGroupsAux_cons, List.countP_cons]
          by_cases hP : (accumGroup tm (h :: t)).1 = []
          · have hb : (!(accumGroup tm (h :: t)).1.isEmpty) = false := by
              simp [hP]
            rw [hb]
            simp only [hP, ne_eq, not_true_eq_false, if_false, List.nil_append]
            obtain ⟨h1, h2, h3⟩ := ih pc (if (accumGroup tm (h :: t)).2 ≠ [] then kc + 1 else kc)
            exact ⟨by rw [h1]; try simp, h2, h3⟩
          · have hb : (!(accumGroup tm (h :: t)).1.isEmpty) = true := by
              simp [List.isEmpty_iff, hP]
            rw [hb]
            simp only [hP, ne_eq, not_false_eq_true, if_true, List.singleton_append]
            obtain ⟨h1, h2, h3⟩ :=
              ih (pc + 1) (if (accumGroup tm (h :: t)).2 ≠ [] then kc + 1 else kc)
            refine ⟨by rw [List.length_cons, h1]; try simp, ?_, ?_⟩
            · intro r hr f hf
              rcases List.mem_cons.mp hr with rfl | hr
              · exact applyAmounts_isSome _ _ _ _ (create_output_row_isSome h ps pc comp f hf)
              · exact h2 r hr f hf
            · rw [List.map_cons, List.length_cons, h3]
              have hrow : (applyAmounts (create_output_row h ps pc comp) (schemaIdToCol ps)
                  (accumGroup tm (h :: t)).1) "journal_row_number"
                    = some (Val.str (toString pc)) := by
                rw [applyAmounts_other]
                · exact create_output_row_row_number h ps pc comp
                · intro p hpmem
                  obtain ⟨m, hm, hcid⟩ := (accumGroup_keys tm (h :: t)).1 p hpmem
                  exact hp m hm p.1 hcid
              rw [hrow,
                range_map_shift _ pc (fun j => some (Val.str (toString j)))]
              simp

theorem processGroupsAux_spec_pokupki (tm : List MapEntry) (ps pk : Schema) (comp : Company)
    (groups : List (List JLine))
    (hk : ∀ m ∈ tm, ∀ cid ∈ m.pokupki_columns,
      schemaIdToCol pk cid ≠ some "journal_row_number") :
    ∀ pc kc : Nat,
    (processGroupsAux tm ps pk comp groups pc kc).2.length
        = groups.countP (fun g => !(accumGroup tm g).2.isEmpty)
    ∧ (∀ r ∈ (processGroupsAux tm ps pk comp groups pc kc).2,
        ∀ f ∈ pk.fields, (r f.internal_name).isSome)
    ∧ (processGroupsAux tm ps pk comp groups pc kc).2.map (fun r => r "journal_row_number")
        = (List.range (processGroupsAux tm ps pk comp groups pc kc).2.length).map
            (fun i => some (Val.str (toString (kc + i)))) := by
  induction groups with
  | nil =>
      intro pc kc
      exact ⟨rfl, by simp [processGroupsAux], by simp [processGroupsAux]⟩
  | cons g rest ih =>
      intro pc kc
      match g with
      | [] =>
          have hstep : processGroupsAux tm ps pk comp ([] :: rest) pc kc
              = processGroupsAux tm ps pk comp rest pc kc := rfl
          rw [hstep, List.countP_cons]
          have hempty : (!(accumGroup tm ([] : List JLine)).2.isEmpty) = false := rfl
          rw [hempty]
          obtain ⟨h1, h2, h3⟩ := ih pc kc
          exact ⟨by rw [h1]; try simp, h2, h3⟩
      | h :: t =>
          rw [processGroupsAux_cons, List.countP_cons]
          by_cases hK : (accumGroup tm (h :: t)).2 = []
          · have hb : (!(accumGroup tm (h :: t)).2.isEmpty) = false := by
              simp [hK]
            rw [hb]
            simp only [hK, ne_eq, not_true_eq_false, if_false, List.nil_append]
            obtain ⟨h1, h2, h3⟩ := ih (if (accumGroup tm (h :: t)).1 ≠ [] then pc + 1 else pc) kc
            exact ⟨by rw [h1]; try simp, h2, h3⟩
          · have hb : (!(accumGroup tm (h :: t)).2.isEmpty) = true := by
              simp [List.isEmpty_iff, hK]
            rw [hb]
            simp only [hK, ne_eq, not_false_eq_true, if_true, List.singleton_append]
            obtain ⟨h1, h2, h3⟩ :=
              ih (if (accumGroup tm (h :: t)).1 ≠ [] then pc + 1 else pc) (kc + 1)
            refine ⟨by rw [List.length_cons, h1]; try simp, ?_, ?_⟩
            · intro r hr f hf
              rcases List.mem_cons.mp hr with rfl | hr
              · exact applyAmounts_isSome _ _ _ _ (create_output_row_isSome h pk kc comp f hf)
              · exact h2 r hr f hf
            · rw [List.map_cons, List.length_cons, h3]
              have hrow : (applyAmounts (create_output_row h pk kc comp) (schemaIdToCol pk)
                  (accumGroup tm (h :: t)).2) "journal_row_number"
                    = some (Val.str (toString kc)) := by
                rw [applyAmounts_other]
                · exact create_output_row_row_number h pk kc comp
                · intro p hpmem
                  obtain ⟨m, hm, hcid⟩ := (accumGroup_keys tm (h :: t)).2 p hpmem
                  exact hk m hm p.1 hcid
              rw [hrow,
                range_map_shift _ kc (fun j => some (Val.str (toString j)))]
              simp

/-- C6: for every mapping table whose target ids do not resolve to the
row-number column, every schema pair, company and list of document groups:
each table receives exactly one row per group with a non-empty accumulator
for that table and no row for the others; every emitted row carries a value
for every schema field (defaults were written first, then overwritten); and
the row numbers are the per-table counters starting at 1, incremented only
on emission, so skipped documents consume no number. -/
theorem c6_row_emission (tm : List MapEntry) (ps pk : Schema) (comp : Company)
    (groups : List (List JLine))
    (hp : ∀ m ∈ tm, ∀ cid ∈ m.prodagbi_columns,
      schemaIdToCol ps cid ≠ some "journal_row_number")
    (hk : ∀ m ∈ tm, ∀ cid ∈ m.pokupki_columns,
      schemaIdToCol pk cid ≠ some "journal_row_number") :
    (processGroupsAux tm ps pk comp groups 1 1).1.length
        = groups.countP (fun g => !(accumGroup tm g).1.isEmpty)
    ∧ (processGroupsAux tm ps pk comp groups 1 1).2.length
        = groups.countP (fun g => !(accumGroup tm g).2.isEmpty)
    ∧ (∀ r ∈ (processGroupsAux tm ps pk comp groups 1 1).1,
        ∀ f ∈ ps.fields, (r f.internal_name).isSome)
    ∧ (∀ r ∈ (processGroupsAux tm ps pk comp groups 1 1).2,
        ∀ f ∈ pk.fields, (r f.internal_name).isSome)
    ∧ (processGroupsAux tm ps pk comp groups 1 1).1.map (fun r => r "journal_row_number")
        = (List.range (processGroupsAux tm ps pk comp groups 1 1).1.length).map
            (fun i => some (Val.str (toString (1 + i))))
    ∧ (processGroupsAux tm ps pk comp groups 1 1).2.map (fun r => r "journal_row_number")
        = (List.range (processGroupsAux tm ps pk comp groups 1 1).2.length).map
            (fun i => some (Val.str (toString (1 + i)))) := by
  obtain ⟨p1, p2, p3⟩ := processGroupsAux_spec_prodagbi tm ps pk comp groups hp 1 1
  obtain ⟨k1, k2, k3⟩ := processGroupsAux_spec_pokupki tm ps pk comp groups hk 1 1
  exact ⟨p1, k1, p2, k2, p3, k3⟩

/-- A line whose tax tag is absent from the mapping table — the document
accumulates nothing and must be skipped without consuming a row number. -/
def lineUnmapped : JLine :=
  { lineC3 with tax_tag_ids := "ZZ", sales_move_name := some "INV-2" }

/-- Witness for `c6_row_emission`: three documents, the middle one unmapped;
two rows emitted, numbered 1 and 2. -/
theorem c6_row_emission_witness :
    (processGroupsAux tmC3 psC3 pkC3 compC3 [[lineC3], [lineUnmapped], [lW2]] 1 1).1.length = 2
    ∧ (processGroupsAux tmC3 psC3 pkC3 compC3 [[lineC3], [lineUnmapped], [lW2]] 1 1).1.map
        (fun r => r "journal_row_number")
        = [some (Val.str "1"), some (Val.str "2")]
    ∧ (processGroupsAux tmC3 psC3 pkC3 compC3 [[lineC3], [lineUnmapped], [lW2]] 1 1).2.length
        = 0 := by
  have h := c6_row_emission tmC3 psC3 pkC3 compC3 [[lineC3], [lineUnmapped], [lW2]]
    (by decide) (by decide)
  refine ⟨?_, ?_, ?_⟩
  · rw [h.1]
    decide
  · rw [h.2.2.2.2.1, h.1]
    decide
  · rw [h.2.1]
    decide

/-! ### Declaration deriver — generic lemmas -/

theorem getNumD_of_num (r : Row) (k : String) (q : ℚ) (h : r k = some (Val.num q)) :
    getNumD r k = q := by
  rw [getNumD, h]

theorem foldl_keep {α : Type} (step : Row → α → Row) (L : List α) (key : String)
    (v : Option Val)
    (hstep : ∀ r x, x ∈ L → (step r x) key = r key ∨ (step r x) key = v) :
    ∀ r : Row, r key = v → (L.foldl step r) key = v := by
  induction L with
  | nil => exact fun r h => h
  | cons x t ih =>
      intro r h
      rw [List.foldl_cons]
      refine ih (fun r' y hy => hstep r' y (List.mem_cons_of_mem x hy)) _ ?_
      rcases hstep r x (List.mem_cons_self x t) with h1 | h1
      · rw [h1, h]
      · exact h1

theorem foldl_fixed_write {α : Type} (step : Row → α → Row) (L : List α) (key : String)
    (v : Option Val)
    (hstep : ∀ r x, x ∈ L → (step r x) key = r key ∨ (step r x) key = v)
    (hwrite : ∃ x ∈ L, ∀ r : Row, (step r x) key = v) :
    ∀ r : Row, (L.foldl step r) key = v := by
  induction L with
  | nil =>
      obtain ⟨x, hx, _⟩ := hwrite
      cases hx
  | cons x t ih =>
      intro r
      rw [List.foldl_cons]
      obtain ⟨w, hw, hwval⟩ := hwrite
      rcases List.mem_cons.mp hw with rfl | hw
      · exact foldl_keep step t key v
          (fun r' y hy => hstep r' y (List.mem_cons_of_mem w hy)) _ (hwval r)
      · exact ih (fun r' y hy => hstep r' y (List.mem_cons_of_mem x hy)) ⟨w, hw, hwval⟩ _

theorem foldl_preserve {α : Type} (step : Row → α → Row) (L : List α) (key : String)
    (hstep : ∀ r x, x ∈ L → (step r x) key = r key) :
    ∀ r : Row, (L.foldl step r) key = r key := by
  induction L with
  | nil => exact fun _ => rfl
  | cons x t ih =>
      intro r
      rw [List.foldl_cons]
      rw [ih (fun r' y hy => hstep r' y (List.mem_cons_of_mem x hy))]
      exact hstep r x (List.mem_cons_self x t)

theorem find?_last_cons (f : DField) (t : List DField) (col : String) :
    schemaByName (f :: t) col
      = match schemaByName t col with
        | some g => some g
        | none => if f.internal_name = col then some f else none := by
  rw [schemaByName, schemaByName, List.reverse_cons, List.find?_append]
  cases hf : (t.reverse).find? (fun g => decide (g.internal_name = col)) with
  | some g => simp
  | none =>
      simp only [Option.none_orElse]
      by_cases hc : f.internal_name = col
      · simp [List.find?_cons, hc]
      · simp [List.find?_cons, hc]

theorem foldl_init_last (fields : List DField) (r : Row) (col : String) :
    (fields.foldl (fun r f => setRow r f.internal_name (dDefault f.type)) r) col
      = match schemaByName fields col with
        | some f => some (dDefault f.type)
        | none => r col := by
  induction fields generalizing r with
  | nil => rfl
  | cons f t ih =>
      rw [List.foldl_cons, ih, find?_last_cons]
      cases hg : schemaByName t col with
      | some g => rfl
      | none =>
          by_cases hc : f.internal_name = col
          · rw [if_pos hc, ← hc, setRow_same]
          · rw [if_neg hc, setRow_other _ _ _ _ (fun he => hc he.symm)]

theorem deklarInit_value (fields : List DField) (col : String) :
    (deklarInit fields) col
      = match schemaByName fields col with
        | some f => some (dDefault f.type)
        | none => none := by
  rw [deklarInit, foldl_init_last]
  cases schemaByName fields col <;> rfl

set_option maxHeartbeats 1000000 in
theorem step3One_other (prod pok : DTable) (tp : String) (comp : Company)
    (ovr : String → Option Val) (fields : List DField) (mapping : List DRule)
    (r : Row) (f : DField) (k : String) (h : f.internal_name ≠ k) :
    (step3One prod pok tp comp ovr fields mapping r f) k = r k := by
  have hk : k ≠ f.internal_name := fun he => h he.symm
  cases hm : lookupRule mapping f.internal_name with
  | none => simp [step3One, hm]
  | some m =>
      simp only [step3One, hm]
      repeat' split
      all_goals first
        | rfl
        | exact setRow_other _ _ _ _ hk
        | (cases ovr f.internal_name with
            | none => first | rfl | exact setRow_other _ _ _ _ hk
            | some v => exact setRow_other _ _ _ _ hk)

theorem step4One_other (mapping : List DRule) (r : Row) (f : DField) (k : String)
    (h : f.internal_name ≠ k) :
    (step4One mapping r f) k = r k := by
  have hk : k ≠ f.internal_name := fun he => h he.symm
  cases hm : lookupRule mapping f.internal_name with
  | none => simp [step4One, hm]
  | some m =>
      simp only [step4One, hm]
      repeat' split
      all_goals first
        | rfl
        | exact setRow_other _ _ _ _ hk

theorem step4One_not_special (mapping : List DRule) (r : Row) (f : DField)
    (h : f.internal_name ≠ "total_tax_credit" ∧ f.internal_name ≠ "vat_due"
      ∧ f.internal_name ≠ "vat_refundable") :
    step4One mapping r f = r := by
  cases hm : lookupRule mapping f.internal_name with
  | none => simp [step4One, hm]
  | some m =>
      simp only [step4One, hm]
      split
      · rw [if_neg h.1, if_neg h.2.1, if_neg h.2.2]
      · rfl

theorem step4One_nonexpr (mapping : List DRule) (r : Row) (f : DField) (m : DRule)
    (hm : lookupRule mapping f.internal_name = some m)
    (hkind : m.source_kind ≠ "from_deklar_expression") :
    step4One mapping r f = r := by
  simp only [step4One, hm]
  rw [if_neg hkind]

theorem step4One_fixed_keys (mapping : List DRule) (r : Row) (f : DField) (k : String)
    (h1 : k ≠ "total_tax_credit") (h2 : k ≠ "vat_due") (h3 : k ≠ "vat_refundable") :
    (step4One mapping r f) k = r k := by
  by_cases hf : f.internal_name = k
  · cases hm : lookupRule mapping f.internal_name with
    | none => simp [step4One, hm]
    | some m =>
        simp only [step4One, hm]
        split
        · split
          · rename_i hcol
            exact absurd (hf ▸ hcol) h1
          · split
            · rename_i hcol
              exact absurd (hf ▸ hcol) h2
            · split
              · rename_i hcol
                exact absurd (hf ▸ hcol) h3
              · rfl
        · rfl
  · exact step4One_other mapping r f k hf

theorem deklarStep4_fixed_keys (fields : List DField) (mapping : List DRule) (r : Row)
    (k : String)
    (h1 : k ≠ "total_tax_credit") (h2 : k ≠ "vat_due") (h3 : k ≠ "vat_refundable") :
    (deklarStep4 fields mapping r) k = r k := by
  rw [deklarStep4]
  exact foldl_preserve _ _ _ (fun r' f _ => step4One_fixed_keys mapping r' f k h1 h2 h3) r

theorem deklarStep5_other (ovr : String → Option Val) (r : Row) (k : String)
    (h1 : k ≠ "submitter_egn") (h2 : k ≠ "egn") :
    (deklarStep5 ovr r) k = r k := by
  rw [deklarStep5]
  cases ovr "egn" with
  | none => rfl
  | some v =>
      split
      · exact setRow_other _ _ _ _ h1
      · split
        · exact setRow_other _ _ _ _ h2
        · rfl

/-! ### C10 — hard-coded default submitter name -/

theorem step3One_submitter (prod pok : DTable) (tp : String) (comp : Company)
    (ovr : String → Option Val) (fields : List DField) (mapping : List DRule)
    (r : Row) (f : DField) (m : DRule)
    (hf : f.internal_name = "submitter_person")
    (hm : lookupRule mapping "submitter_person" = some m)
    (hkind : m.source_kind = "from_input_or_company") :
    (step3One prod pok tp comp ovr fields mapping r f) "submitter_person"
      = some ((ovr "submitter_person").getD
          (Val.str (comp.default_submitter.getD "Емилия Гюрова"))) := by
  simp only [step3One, hf, hm, hkind]
  simp [setRow_same]

/-- C10: with no caller override for the submitter and no default submitter
in the company context, the declaration's submitter field is the hard-coded
literal, not the schema default empty string. -/
theorem c10_submitter_default (prod pok : DTable) (fields : List DField)
    (mapping : List DRule) (tp : String) (comp : Company) (ovr : String → Option Val)
    (m : DRule)
    (hmem : "submitter_person" ∈ fields.map (fun f => f.internal_name))
    (hm : lookupRule mapping "submitter_person" = some m)
    (hkind : m.source_kind = "from_input_or_company")
    (hovr : ovr "submitter_person" = none)
    (hcomp : comp.default_submitter = none) :
    generate_deklar prod pok fields mapping tp comp ovr "submitter_person"
      = some (Val.str "Емилия Гюрова") := by
  rw [generate_deklar]
  rw [deklarStep5_other _ _ _ (by decide) (by decide)]
  rw [deklarStep4]
  rw [foldl_preserve _ _ _ (fun r f _ => ?_)]
  · rw [deklarStep3]
    refine foldl_fixed_write _ _ _ _ (fun r f hfmem => ?_) ?_ _
    · by_cases hf : f.internal_name = "submitter_person"
      · right
        rw [step3One_submitter prod pok tp comp ovr fields mapping r f m hf hm hkind,
          hovr, hcomp]
        rfl
      · left
        exact step3One_other prod pok tp comp ovr fields mapping r f _ hf
    · rw [List.mem_map] at hmem
      obtain ⟨f, hfmem, hfname⟩ := hmem
      refine ⟨f, hfmem, fun r => ?_⟩
      rw [step3One_submitter prod pok tp comp ovr fields mapping r f m hfname hm hkind,
        hovr, hcomp]
      rfl
  · by_cases hf : f.internal_name = "submitter_person"
    · refine congrFun (step4One_nonexpr mapping r f m ?_ ?_) _
      · rw [hf]
        exact hm
      · rw [hkind]
        decide
    · exact step4One_other mapping r f _ hf

/-- Witness for `c10_submitter_default` at a one-field schema. -/
theorem c10_submitter_default_witness :
    generate_deklar ⟨[], []⟩ ⟨[], []⟩ [⟨"submitter_person", "object"⟩]
      [⟨"submitter_person", "from_input_or_company", none, none⟩]
      "202505" ⟨"BG9", "C", none⟩ (fun _ => none) "submitter_person"
      = some (Val.str "Емилия Гюрова") :=
  c10_submitter_default ⟨[], []⟩ ⟨[], []⟩ _ _ "202505" _ _
    ⟨"submitter_person", "from_input_or_company", none, none⟩
    (by decide) rfl rfl rfl rfl

/-! ### C9 — manual-or-constant precedence and float parsing -/

theorem step3One_manual (prod pok : DTable) (tp : String) (comp : Company)
    (ovr : String → Option Val) (fields : List DField) (mapping : List DRule)
    (r : Row) (f : DField) (m : DRule) (col : String)
    (hf : f.internal_name = col)
    (hm : lookupRule mapping col = some m)
    (hkind : m.source_kind = "manual_or_constant") :
    (step3One prod pok tp comp ovr fields mapping r f) col
      = match ovr col with
        | some v => some (if dType fields col = "float64" then Val.num (parse_float v) else v)
        | none =>
            match m.default_value with
            | some dv =>
                some (if dType fields col = "float64" then Val.num (parse_float dv) else dv)
            | none => r col := by
  subst hf
  simp only [step3One, hm, hkind]
  cases ho : ovr f.internal_name with
  | some v =>
      by_cases hd : dType fields f.internal_name = "float64" <;>
        simp [hd, setRow_same]
  | none =>
      cases hdv : m.default_value with
      | some dv =>
          by_cases hd : dType fields f.internal_name = "float64" <;>
            simp [hd, setRow_same]
      | none => simp

/-- C9: a `manual_or_constant` field takes the caller override when present —
parsed with `_parse_float` (comma decimal separator normalized to a dot, an
unparsable value becoming 0.0, never an error) when the declared type is
numeric — otherwise the rule's default constant under the same parsing rule,
otherwise the schema default of its declared type. -/
theorem c9_manual_or_constant (prod pok : DTable) (fields : List DField)
    (mapping : List DRule) (tp : String) (comp : Company) (ovr : String → Option Val)
    (col : String) (m : DRule)
    (hmem : col ∈ fields.map (fun f => f.internal_name))
    (hm : lookupRule mapping col = some m)
    (hkind : m.source_kind = "manual_or_constant")
    (h1 : col ≠ "submitter_egn") (h2 : col ≠ "egn") :
    generate_deklar prod pok fields mapping tp comp ovr col
      = match ovr col with
        | some v => some (if dType fields col = "float64" then Val.num (parse_float v) else v)
        | none =>
            match m.default_value with
            | some dv =>
                some (if dType fields col = "float64" then Val.num (parse_float dv) else dv)
            | none =>
                match schemaByName fields col with
                | some f => some (dDefault f.type)
                | none => none := by
  have hpres4 : ∀ (r : Row) (f : DField), f ∈ fields → (step4One mapping r f) col = r col := by
    intro r f _
    by_cases hf : f.internal_name = col
    · refine congrFun (step4One_nonexpr mapping r f m ?_ ?_) _
      · rw [hf]
        exact hm
      · rw [hkind]
        decide
    · exact step4One_other mapping r f _ hf
  rw [generate_deklar]
  rw [deklarStep5_other _ _ _ h1 h2]
  rw [deklarStep4, foldl_preserve _ _ _ hpres4]
  rw [deklarStep3]
  have hoth : ∀ (r : Row) (f : DField), f ∈ fields → f.internal_name ≠ col →
      (step3One prod pok tp comp ovr fields mapping r f) col = r col :=
    fun r f _ hf => step3One_other prod pok tp comp ovr fields mapping r f _ hf
  obtain ⟨fw, hfw, hfwname⟩ := List.mem_map.mp hmem
  cases ho : ovr col with
  | some v =>
      refine foldl_fixed_write _ _ _
        (some (if dType fields col = "float64" then Val.num (parse_float v) else v)) ?_ ?_ _
      · intro r f hfmem
        by_cases hf : f.internal_name = col
        · right
          rw [step3One_manual prod pok tp comp ovr fields mapping r f m col hf hm hkind, ho]
        · exact Or.inl (hoth r f hfmem hf)
      · refine ⟨fw, hfw, fun r => ?_⟩
        rw [step3One_manual prod pok tp comp ovr fields mapping r fw m col hfwname hm hkind, ho]
  | none =>
      cases hdv : m.default_value with
      | some dv =>
          refine foldl_fixed_write _ _ _
            (some (if dType fields col = "float64" then Val.num (parse_float dv) else dv)) ?_ ?_ _
          · intro r f hfmem
            by_cases hf : f.internal_name = col
            · right
              rw [step3One_manual prod pok tp comp ovr fields mapping r f m col hf hm hkind,
                ho, hdv]
            · exact Or.inl (hoth r f hfmem hf)
          · refine ⟨fw, hfw, fun r => ?_⟩
            rw [step3One_manual prod pok tp comp ovr fields mapping r fw m col hfwname hm hkind,
              ho, hdv]
      | none =>
          have hpres3 : ∀ (r : Row) (f : DField), f ∈ fields →
              (step3One prod pok tp comp ovr fields mapping r f) col = r col := by
            intro r f hfmem
            by_cases hf : f.internal_name = col
            · rw [step3One_manual prod pok tp comp ovr fields mapping r f m col hf hm hkind,
                ho, hdv]
            · exact hoth r f hfmem hf
          rw [foldl_preserve _ _ _ hpres3]
          exact deklarInit_value fields col

/-- Witness for `c9_manual_or_constant`: a numeric field overridden with the
comma-decimal string `" 12,5 "`, which parses to 12.5. -/
theorem c9_manual_or_constant_witness :
    generate_deklar ⟨[], []⟩ ⟨[], []⟩ [⟨"extra_tax", "float64"⟩]
      [⟨"extra_tax", "manual_or_constant", none, some (Val.str "7")⟩]
      "202505" ⟨"BG9", "C", none⟩
      (fun k => if k = "extra_tax" then some (Val.str " 12,5 ") else none) "extra_tax"
      = some (Val.num (25/2)) := by
  have h := c9_manual_or_constant ⟨[], []⟩ ⟨[], []⟩ [⟨"extra_tax", "float64"⟩]
    [⟨"extra_tax", "manual_or_constant", none, some (Val.str "7")⟩]
    "202505" ⟨"BG9", "C", none⟩
    (fun k => if k = "extra_tax" then some (Val.str " 12,5 ") else none)
    "extra_tax" ⟨"extra_tax", "manual_or_constant", none, some (Val.str "7")⟩
    (by decide) rfl rfl (by decide) (by decide)
  rw [h]
  with_unfolding_all decide

/-! ### C5 — declaration expressions -/

theorem step4One_ttc (mapping : List DRule) (r : Row) (f : DField) (mT : DRule)
    (hf : f.internal_name = "total_tax_credit")
    (hm : lookupRule mapping "total_tax_credit" = some mT)
    (hkind : mT.source_kind = "from_deklar_expression") :
    step4One mapping r f
      = setRow r "total_tax_credit" (Val.num (getNumD r "purchases_vat_full_credit")) := by
  simp [step4One, hf, hm, hkind]

theorem step4One_due (mapping : List DRule) (r : Row) (f : DField) (mD : DRule)
    (hf : f.internal_name = "vat_due")
    (hm : lookupRule mapping "vat_due" = some mD)
    (hkind : mD.source_kind = "from_deklar_expression") :
    step4One mapping r f
      = setRow r "vat_due"
          (Val.num (max 0 (getNumD r "sales_total_vat" - getNumD r "total_tax_credit"))) := by
  simp [step4One, hf, hm, hkind]

theorem step4One_ref (mapping : List DRule) (r : Row) (f : DField) (mR : DRule)
    (hf : f.internal_name = "vat_refundable")
    (hm : lookupRule mapping "vat_refundable" = some mR)
    (hkind : mR.source_kind = "from_deklar_expression") :
    step4One mapping r f
      = setRow r "vat_refundable"
          (Val.num (max 0 (getNumD r "total_tax_credit" - getNumD r "sales_total_vat"))) := by
  simp [step4One, hf, hm, hkind]

theorem step4_foldB (mapping : List DRule) (B : List DField) (mD mR : DRule) (p s : ℚ)
    (hmD : lookupRule mapping "vat_due" = some mD)
    (hkD : mD.source_kind = "from_deklar_expression")
    (hmR : lookupRule mapping "vat_refundable" = some mR)
    (hkR : mR.source_kind = "from_deklar_expression")
    (hnoT : "total_tax_credit" ∉ B.map (fun f => f.internal_name)) :
    ∀ r : Row, r "total_tax_credit" = some (Val.num p) →
      r "sales_total_vat" = some (Val.num s) →
    (B.foldl (step4One mapping) r) "total_tax_credit" = some (Val.num p)
    ∧ (B.foldl (step4One mapping) r) "sales_total_vat" = some (Val.num s)
    ∧ ("vat_due" ∈ B.map (fun f => f.internal_name) →
        (B.foldl (step4One mapping) r) "vat_due" = some (Val.num (max 0 (s - p))))
    ∧ ("vat_due" ∉ B.map (fun f => f.internal_name) →
        (B.foldl (step4One mapping) r) "vat_due" = r "vat_due")
    ∧ ("vat_refundable" ∈ B.map (fun f => f.internal_name) →
        (B.foldl (step4One mapping) r) "vat_refundable" = some (Val.num (max 0 (p - s))))
    ∧ ("vat_refundable" ∉ B.map (fun f => f.internal_name) →
        (B.foldl (step4One mapping) r) "vat_refundable" = r "vat_refundable") := by
  induction B with
  | nil =>
      intro r hT hS
      exact ⟨hT, hS, fun hmem => absurd hmem (by simp), fun _ => rfl,
        fun hmem => absurd hmem (by simp), fun _ => rfl⟩
  | cons f B' ih =>
      intro r hT hS
      rw [List.map_cons] at hnoT
      have hfT : f.internal_name ≠ "total_tax_credit" := by
        intro he
        exact hnoT (he ▸ List.mem_cons_self _ _)
      have hnoT' : "total_tax_credit" ∉ B'.map (fun f => f.internal_name) := by
        intro hmem
        exact hnoT (List.mem_cons_of_mem _ hmem)
      have ih' := ih hnoT'
      rw [List.foldl_cons]
      have hT1 : (step4One mapping r f) "total_tax_credit" = some (Val.num p) := by
        rw [step4One_other mapping r f _ hfT]
        exact hT
      have hS1 : (step4One mapping r f) "sales_total_vat" = some (Val.num s) := by
        rw [step4One_fixed_keys mapping r f _ (by decide) (by decide) (by decide)]
        exact hS
      obtain ⟨c1, c2, c3, c4, c5, c6⟩ := ih' (step4One mapping r f) hT1 hS1
      refine ⟨c1, c2, ?_, ?_, ?_, ?_⟩
      · intro hmem
        by_cases hmem' : "vat_due" ∈ B'.map (fun f => f.internal_name)
        · exact c3 hmem'
        · have hfd : f.internal_name = "vat_due" := by
            rw [List.map_cons] at hmem
            rcases List.mem_cons.mp hmem with h | h
            · exact h.symm
            · exact absurd h hmem'
          rw [c4 hmem']
          rw [step4One_due mapping r f mD hfd hmD hkD, setRow_same,
            getNumD_of_num r _ s hS, getNumD_of_num r _ p hT]
      · intro hmem
        rw [List.map_cons] at hmem
        have hfd : f.internal_name ≠ "vat_due" := by
          intro he
          exact hmem (he ▸ List.mem_cons_self _ _)
        have hmem' : "vat_due" ∉ B'.map (fun f => f.internal_name) := by
          intro h
          exact hmem (List.mem_cons_of_mem _ h)
        rw [c4 hmem', step4One_other mapping r f _ hfd]
      · intro hmem
        by_cases hmem' : "vat_refundable" ∈ B'.map (fun f => f.internal_name)
        · exact c5 hmem'
        · have hfd : f.internal_name = "vat_refundable" := by
            rw [List.map_cons] at hmem
            rcases List.mem_cons.mp hmem with h | h
            · exact h.symm
            · exact absurd h hmem'
          rw [c6 hmem']
          rw [step4One_ref mapping r f mR hfd hmR hkR, setRow_same,
            getNumD_of_num r _ s hS, getNumD_of_num r _ p hT]
      · intro hmem
        rw [List.map_cons] at hmem
        have hfd : f.internal_name ≠ "vat_refundable" := by
          intro he
          exact hmem (he ▸ List.mem_cons_self _ _)
        have hmem' : "vat_refundable" ∉ B'.map (fun f => f.internal_name) := by
          intro h
          exact hmem (List.mem_cons_of_mem _ h)
        rw [c6 hmem', step4One_other mapping r f _ hfd]

theorem max_sub_max (s p : ℚ) : max 0 (s - p) - max 0 (p - s) = s - p := by
  rcases le_total s p with h | h
  · rw [max_eq_left (by linarith), max_eq_right (by linarith)]
    ring
  · rw [max_eq_right (by linarith), max_eq_left (by linarith)]
    ring

theorem max_mutual_exclusive (s p : ℚ) : ¬(0 < max 0 (s - p) ∧ 0 < max 0 (p - s)) := by
  rintro ⟨h1, h2⟩
  rcases le_total s p with h | h
  · rw [max_eq_left (by linarith)] at h1
    exact lt_irrefl 0 h1
  · rw [max_eq_left (by linarith)] at h2
    exact lt_irrefl 0 h2

/-- C5 (amended): for every pair of registers, rule table, period, context
and overrides, *provided* the schema field order evaluates
`total_tax_credit` before `vat_due` and `vat_refundable` (Pass 2 walks the
schema in order against current values) and the two source fields resolve to
numbers in Pass 1: `total_tax_credit` equals `purchases_vat_full_credit`, at
most one of `vat_due`/`vat_refundable` is strictly positive, and
`vat_due − vat_refundable = sales_total_vat − total_tax_credit` exactly. -/
theorem c5_declaration_identities
    (prod pok : DTable) (A B : List DField) (fT : DField) (mapping : List DRule)
    (tp : String) (comp : Company) (ovr : String → Option Val)
    (mT mD mR : DRule) (s p : ℚ)
    (hT : fT.internal_name = "total_tax_credit")
    (hmT : lookupRule mapping "total_tax_credit" = some mT)
    (hkT : mT.source_kind = "from_deklar_expression")
    (hmD : lookupRule mapping "vat_due" = some mD)
    (hkD : mD.source_kind = "from_deklar_expression")
    (hmR : lookupRule mapping "vat_refundable" = some mR)
    (hkR : mR.source_kind = "from_deklar_expression")
    (hnoT : "total_tax_credit" ∉ B.map (fun f => f.internal_name))
    (hDmem : "vat_due" ∈ B.map (fun f => f.internal_name))
    (hRmem : "vat_refundable" ∈ B.map (fun f => f.internal_name))
    (hs : deklarStep3 prod pok tp comp ovr (A ++ fT :: B) mapping
        (deklarInit (A ++ fT :: B)) "sales_total_vat" = some (Val.num s))
    (hpv : deklarStep3 prod pok tp comp ovr (A ++ fT :: B) mapping
        (deklarInit (A ++ fT :: B)) "purchases_vat_full_credit" = some (Val.num p)) :
    generate_deklar prod pok (A ++ fT :: B) mapping tp comp ovr "total_tax_credit"
        = some (Val.num p)
    ∧ generate_deklar prod pok (A ++ fT :: B) mapping tp comp ovr "vat_due"
        = some (Val.num (max 0 (s - p)))
    ∧ generate_deklar prod pok (A ++ fT :: B) mapping tp comp ovr "vat_refundable"
        = some (Val.num (max 0 (p - s)))
    ∧ generate_deklar prod pok (A ++ fT :: B) mapping tp comp ovr "sales_total_vat"
        = some (Val.num s)
    ∧ generate_deklar prod pok (A ++ fT :: B) mapping tp comp ovr "purchases_vat_full_credit"
        = some (Val.num p)
    ∧ getNumD (generate_deklar prod pok (A ++ fT :: B) mapping tp comp ovr) "vat_due"
        - getNumD (generate_deklar prod pok (A ++ fT :: B) mapping tp comp ovr) "vat_refundable"
      = getNumD (generate_deklar prod pok (A ++ fT :: B) mapping tp comp ovr) "sales_total_vat"
        - getNumD (generate_deklar prod pok (A ++ fT :: B) mapping tp comp ovr) "total_tax_credit"
    ∧ getNumD (generate_deklar prod pok (A ++ fT :: B) mapping tp comp ovr) "total_tax_credit"
        = getNumD (generate_deklar prod pok (A ++ fT :: B) mapping tp comp ovr)
            "purchases_vat_full_credit"
    ∧ ¬(0 < getNumD (generate_deklar prod pok (A ++ fT :: B) mapping tp comp ovr) "vat_due"
        ∧ 0 < getNumD (generate_deklar prod pok (A ++ fT :: B) mapping tp comp ovr)
            "vat_refundable") := by
  have hAfix : ∀ k, k ≠ "total_tax_credit" → k ≠ "vat_due" → k ≠ "vat_refundable" →
      (List.foldl (step4One mapping)
        (deklarStep3 prod pok tp comp ovr (A ++ fT :: B) mapping (deklarInit (A ++ fT :: B)))
        A) k
      = deklarStep3 prod pok tp comp ovr (A ++ fT :: B) mapping
          (deklarInit (A ++ fT :: B)) k := by
    intro k h1 h2 h3
    exact foldl_preserve _ _ _ (fun r f _ => step4One_fixed_keys mapping r f k h1 h2 h3) _
  have hrA_s : (List.foldl (step4One mapping)
      (deklarStep3 prod pok tp comp ovr (A ++ fT :: B) mapping (deklarInit (A ++ fT :: B)))
      A) "sales_total_vat" = some (Val.num s) := by
    rw [hAfix _ (by decide) (by decide) (by decide)]
    exact hs
  have hrA_p : (List.foldl (step4One mapping)
      (deklarStep3 prod pok tp comp ovr (A ++ fT :: B) mapping (deklarInit (A ++ fT :: B)))
      A) "purchases_vat_full_credit" = some (Val.num p) := by
    rw [hAfix _ (by decide) (by decide) (by decide)]
    exact hpv
  have hstepT := step4One_ttc mapping
    (List.foldl (step4One mapping)
      (deklarStep3 prod pok tp comp ovr (A ++ fT :: B) mapping (deklarInit (A ++ fT :: B)))
      A) fT mT hT hmT hkT
  have hrT_t : (step4One mapping
      (List.foldl (step4One mapping)
        (deklarStep3 prod pok tp comp ovr (A ++ fT :: B) mapping (deklarInit (A ++ fT :: B)))
        A) fT) "total_tax_credit" = some (Val.num p) := by
    rw [hstepT, setRow_same, getNumD_of_num _ _ p hrA_p]
  have hrT_s : (step4One mapping
      (List.foldl (step4One mapping)
        (deklarStep3 prod pok tp comp ovr (A ++ fT :: B) mapping (deklarInit (A ++ fT :: B)))
        A) fT) "sales_total_vat" = some (Val.num s) := by
    rw [hstepT, setRow_other _ _ _ _ (by decide)]
    exact hrA_s
  have hrT_p : (step4One mapping
      (List.foldl (step4One mapping)
        (deklarStep3 prod pok tp comp ovr (A ++ fT :: B) mapping (deklarInit (A ++ fT :: B)))
        A) fT) "purchases_vat_full_credit" = some (Val.num p) := by
    rw [hstepT, setRow_other _ _ _ _ (by decide)]
    exact hrA_p
  obtain ⟨c1, c2, c3, _c4, c5, _c6⟩ := step4_foldB mapping B mD mR p s hmD hkD hmR hkR hnoT
    (step4One mapping
      (List.foldl (step4One mapping)
        (deklarStep3 prod pok tp comp ovr (A ++ fT :: B) mapping (deklarInit (A ++ fT :: B)))
        A) fT) hrT_t hrT_s
  have hr4_p : (List.foldl (step4One mapping)
      (step4One mapping
        (List.foldl (step4One mapping)
          (deklarStep3 prod pok tp comp ovr (A ++ fT :: B) mapping (deklarInit (A ++ fT :: B)))
          A) fT) B) "purchases_vat_full_credit" = some (Val.num p) := by
    rw [foldl_preserve _ _ _
      (fun r f _ => step4One_fixed_keys mapping r f _ (by decide) (by decide) (by decide))]
    exact hrT_p
  have hgd : ∀ k, k ≠ "submitter_egn" → k ≠ "egn" →
      generate_deklar prod pok (A ++ fT :: B) mapping tp comp ovr k
        = (List.foldl (step4One mapping)
            (step4One mapping
              (List.foldl (step4One mapping)
                (deklarStep3 prod pok tp comp ovr (A ++ fT :: B) mapping
                  (deklarInit (A ++ fT :: B)))
                A) fT) B) k := by
    intro k h1 h2
    rw [generate_deklar, deklarStep4, List.foldl_append, List.foldl_cons]
    exact deklarStep5_other _ _ _ h1 h2
  have hgd_t : generate_deklar prod pok (A ++ fT :: B) mapping tp comp ovr "total_tax_credit"
      = some (Val.num p) := by
    rw [hgd _ (by decide) (by decide)]
    exact c1
  have hgd_d : generate_deklar prod pok (A ++ fT :: B) mapping tp comp ovr "vat_due"
      = some (Val.num (max 0 (s - p))) := by
    rw [hgd _ (by decide) (by decide)]
    exact c3 hDmem
  have hgd_r : generate_deklar prod pok (A ++ fT :: B) mapping tp comp ovr "vat_refundable"
      = some (Val.num (max 0 (p - s))) := by
    rw [hgd _ (by decide) (by decide)]
    exact c5 hRmem
  have hgd_s : generate_deklar prod pok (A ++ fT :: B) mapping tp comp ovr "sales_total_vat"
      = some (Val.num s) := by
    rw [hgd _ (by decide) (by decide)]
    exact c2
  have hgd_p :
      generate_deklar prod pok (A ++ fT :: B) mapping tp comp ovr "purchases_vat_full_credit"
      = some (Val.num p) := by
    rw [hgd _ (by decide) (by decide)]
    exact hr4_p
  refine ⟨hgd_t, hgd_d, hgd_r, hgd_s, hgd_p, ?_, ?_, ?_⟩
  · rw [getNumD_of_num _ _ _ hgd_d, getNumD_of_num _ _ _ hgd_r,
      getNumD_of_num _ _ _ hgd_s, getNumD_of_num _ _ _ hgd_t]
    exact max_sub_max s p
  · rw [getNumD_of_num _ _ _ hgd_t, getNumD_of_num _ _ _ hgd_p]
  · rw [getNumD_of_num _ _ _ hgd_d, getNumD_of_num _ _ _ hgd_r]
    exact max_mutual_exclusive s p

/-- An empty register. -/
def dtEmpty : DTable := { cols := [], rows := [] }

/-- Declaration rules for the C5 instances: the two source fields are
caller-overridable, the three derived fields are expressions. -/
def drulesC5 : List DRule :=
  [{ deklar_column := "sales_total_vat", source_kind := "manual_or_constant",
     source_column := none, default_value := none },
   { deklar_column := "purchases_vat_full_credit", source_kind := "manual_or_constant",
     source_column := none, default_value := none },
   { deklar_column := "vat_due", source_kind := "from_deklar_expression",
     source_column := none, default_value := none },
   { deklar_column := "total_tax_credit", source_kind := "from_deklar_expression",
     source_column := none, default_value := none },
   { deklar_column := "vat_refundable", source_kind := "from_deklar_expression",
     source_column := none, default_value := none }]

/-- Overrides: sales VAT 80, purchases full-credit VAT 100. -/
def ovrC5 : String → Option Val := fun k =>
  if k = "sales_total_vat" then some (Val.num 80)
  else if k = "purchases_vat_full_credit" then some (Val.num 100)
  else none

def compC5 : Company := { vat := "BG9", legal_name := "C", default_submitter := none }

/-- A declaration schema that orders `vat_due` *before* `total_tax_credit`. -/
def dfieldsBad : List DField :=
  [{ internal_name := "sales_total_vat", type := "float64" },
   { internal_name := "purchases_vat_full_credit", type := "float64" },
   { internal_name := "vat_due", type := "float64" },
   { internal_name := "total_tax_credit", type := "float64" },
   { internal_name := "vat_refundable", type := "float64" }]

/-- C5, counterexample: with `vat_due` evaluated before `total_tax_credit`
in the schema order (sales VAT 80, credit 100), the generated row has
`vat_due = 80 > 0` *and* `vat_refundable = 20 > 0`, and
`vat_due − vat_refundable = 60 ≠ −20 = sales_total_vat − total_tax_credit`:
both halves of the claim fail. -/
theorem c5_counterexample :
    (0 < getNumD (generate_deklar dtEmpty dtEmpty dfieldsBad drulesC5 "202505" compC5 ovrC5)
        "vat_due"
      ∧ 0 < getNumD (generate_deklar dtEmpty dtEmpty dfieldsBad drulesC5 "202505" compC5 ovrC5)
        "vat_refundable")
    ∧ getNumD (generate_deklar dtEmpty dtEmpty dfieldsBad drulesC5 "202505" compC5 ovrC5)
          "vat_due"
        - getNumD (generate_deklar dtEmpty dtEmpty dfieldsBad drulesC5 "202505" compC5 ovrC5)
          "vat_refundable"
      ≠ getNumD (generate_deklar dtEmpty dtEmpty dfieldsBad drulesC5 "202505" compC5 ovrC5)
          "sales_total_vat"
        - getNumD (generate_deklar dtEmpty dtEmpty dfieldsBad drulesC5 "202505" compC5 ovrC5)
          "total_tax_credit" := by
  with_unfolding_all decide

/-- Witness for `c5_declaration_identities`: same rules with the good schema
order (`total_tax_credit` before the two dependent expressions). -/
theorem c5_declaration_identities_witness :
    generate_deklar dtEmpty dtEmpty
        ([{ internal_name := "sales_total_vat", type := "float64" },
          { internal_name := "purchases_vat_full_credit", type := "float64" }]
          ++ { internal_name := "total_tax_credit", type := "float64" } ::
            [{ internal_name := "vat_due", type := "float64" },
             { internal_name := "vat_refundable", type := "float64" }])
        drulesC5 "202505" compC5 ovrC5 "vat_due" = some (Val.num 0)
    ∧ generate_deklar dtEmpty dtEmpty
        ([{ internal_name := "sales_total_vat", type := "float64" },
          { internal_name := "purchases_vat_full_credit", type := "float64" }]
          ++ { internal_name := "total_tax_credit", type := "float64" } ::
            [{ internal_name := "vat_due", type := "float64" },
             { internal_name := "vat_refundable", type := "float64" }])
        drulesC5 "202505" compC5 ovrC5 "vat_refundable" = some (Val.num 20)
    ∧ generate_deklar dtEmpty dtEmpty
        ([{ internal_name := "sales_total_vat", type := "float64" },
          { internal_name := "purchases_vat_full_credit", type := "float64" }]
          ++ { internal_name := "total_tax_credit", type := "float64" } ::
            [{ internal_name := "vat_due", type := "float64" },
             { internal_name := "vat_refundable", type := "float64" }])
        drulesC5 "202505" compC5 ovrC5 "total_tax_credit" = some (Val.num 100) := by
  have h := c5_declaration_identities dtEmpty dtEmpty
    [{ internal_name := "sales_total_vat", type := "float64" },
     { internal_name := "purchases_vat_full_credit", type := "float64" }]
    [{ internal_name := "vat_due", type := "float64" },
     { internal_name := "vat_refundable", type := "float64" }]
    { internal_name := "total_tax_credit", type := "float64" }
    drulesC5 "202505" compC5 ovrC5
    { deklar_column := "total_tax_credit", source_kind := "from_deklar_expression",
      source_column := none, default_value := none }
    { deklar_column := "vat_due", source_kind := "from_deklar_expression",
      source_column := none, default_value := none }
    { deklar_column := "vat_refundable", source_kind := "from_deklar_expression",
      source_column := none, default_value := none }
    80 100 rfl rfl rfl rfl rfl rfl rfl (by decide) (by decide) (by decide)
    (by with_unfolding_all decide) (by with_unfolding_all decide)
  have hd : max (0 : ℚ) (80 - 100) = 0 := by norm_num
  have hr : max (0 : ℚ) (100 - 80) = 20 := by norm_num
  refine ⟨?_, ?_, h.1⟩
  · rw [h.2.1, hd]
  · rw [h.2.2.1, hr]
